import Mathlib

/-!
# bfs/file.go: generated files, their builders and their read handles

A shallow embedding of `src/bfs/file.go`.

* Go pointers to mutable structs (`*File`, `*openFile`) become explicit state
  passing: an operation takes the old value and returns the new one.
* `int64` arithmetic is exact arithmetic on `Int` followed by `wrap64`.
* A Go `error` is an `Option Error` (`none` is `nil`).
* The owning filesystem `FS`, the `Event` type and its constants are declared
  outside `file.go`; they enter as a type class and as parameters.
* `range` over a Go map visits the entries in an unspecified order; the order
  is an explicit parameter (`RangeOrder`).
-/

namespace bfs

/-! ## Basic types -/

/-- One element of a Go `[]byte`. -/
abbrev Byte := UInt8

/-- Go `fs.FileMode` (a `uint32` of permission and type bits); only stored and copied. -/
abbrev FileMode := Nat

/-- Go `time.Time`; `file.go` never sets it, so only the zero value `0` occurs. -/
abbrev Time := Int

/-- Modelled from the spec: the event mask `Event`, whose declaration is not in
`file.go`: bit flags describing kinds of change, combinable by bitwise OR. -/
abbrev Event := Nat

/-- Go error values that cross this file's boundary. -/
inductive Error where
  /-- The value `io.EOF`. -/
  | EOF : Error
  /-- The value `fs.ErrInvalid`. -/
  | ErrInvalid : Error
  /-- The value `&fs.PathError{Op, Path, Err}`. -/
  | PathError (Op Path : String) (Err : Error) : Error
  /-- Any other error, as produced by a user callback. -/
  | other (msg : String) : Error
  deriving DecidableEq, Repr

/-- Go `errors.Is(err, fs.ErrInvalid)`: a `PathError` is unwrapped to its `Err`. -/
def Error.isInvalid : Error → Bool
  | .ErrInvalid => true
  | .PathError _ _ err => err.isInvalid
  | _ => false

/-- Two to the 63rd power: one more than the largest `int64`. -/
def two63 : Int := 9223372036854775808

/-- Two to the 64th power. -/
def two64 : Int := 18446744073709551616

/-- The `int64` that Go's wrapping arithmetic yields for the exact integer `x`. -/
def wrap64 (x : Int) : Int := (x + two63) % two64 - two63

/-- Go `int64(n)` for a length or count `n`. -/
def int64 (n : Nat) : Int := wrap64 (n : Int)

/-! ## The builder `File` -/

/-- The Go type `map[string]Event`. -/
abbrev WatchMap := AList (fun _ : String => Event)

/-- The Go struct `File`. -/
structure File where
  path : String
  data : List Byte
  mode : FileMode
  modTime : Time
  watch : WatchMap

/-- The Go function `newFile`: the other fields take their zero values. -/
def newFile (target : String) : File :=
  { path := target, data := [], mode := 0, modTime := 0, watch := ∅ }

/-- The Go method `(*File).Path`. -/
def File.Path (f : File) : String :=
  f.path

/-- The Go method `(*File).Write`: `f.data = append(f.data, data...)`. -/
def File.Write (f : File) (data : List Byte) : File :=
  { f with data := f.data ++ data }

/-- The Go method `(*File).Mode`. -/
def File.Mode (f : File) (mode : FileMode) : File :=
  { f with mode := mode }

/-- The Go map read `m[key]`: the zero value when the key is absent. -/
def WatchMap.get (m : WatchMap) (key : String) : Event :=
  (m.lookup key).getD 0

/-- The Go method `(*File).Watch`: `f.watch[pattern] |= event`. -/
def File.Watch (f : File) (pattern : String) (event : Event) : File :=
  { f with watch := f.watch.insert pattern (WatchMap.get f.watch pattern ||| event) }

/-! ## The handle `openFile` -/

/-- The Go struct `openFile`. -/
structure openFile where
  path : String
  data : List Byte
  mode : FileMode
  modTime : Time
  offset : Int
  deriving DecidableEq, Repr

/-- The owning filesystem `FS`, declared outside `file.go`: the only operation
`file.go` calls on it is `link(from, to, event)`. -/
class FS (σ : Type) where
  link : σ → String → String → Event → σ

/-- The Go method `(*File).open`: the handle starts at offset `0`; it cannot fail. -/
def File.open {σ : Type} (f : File) (_fsys : σ) (_key _relative path : String) :
    Except Error openFile :=
  .ok { path := path, data := f.data, mode := f.mode, modTime := f.modTime, offset := 0 }

/-- What `Read` returns, with the state it leaves behind. -/
structure ReadResult where
  /-- The handle after the call. -/
  file : openFile
  /-- The caller's buffer after the call. -/
  buf : List Byte
  /-- The returned count. -/
  n : Int
  /-- The returned error (`none` is `nil`). -/
  err : Option Error
  deriving DecidableEq, Repr

/-- Go's builtin `copy(dst, src)`: overwrites the first `min(len(dst), len(src))`
elements of `dst`; returns the new `dst` and that count. -/
def copy (dst src : List Byte) : List Byte × Nat :=
  let n := min dst.length src.length
  (src.take n ++ dst.drop n, n)

/-- The Go method `(*openFile).Read`. -/
def openFile.Read (f : openFile) (b : List Byte) : ReadResult :=
  if f.offset ≥ int64 f.data.length then
    ⟨f, b, 0, some .EOF⟩
  else if f.offset < 0 then
    ⟨f, b, 0, some (.PathError "read" f.path .ErrInvalid)⟩
  else
    let (b, n) := copy b (f.data.drop f.offset.toNat)
    ⟨{ f with offset := wrap64 (f.offset + int64 n) }, b, n, none⟩

/-- The Go method `(*openFile).Close`. -/
def openFile.Close (f : openFile) : openFile × Option Error :=
  (f, none)

/-- Go's `os.IsPathSeparator` on a slash-separated system. -/
def isPathSeparator (c : Char) : Bool :=
  c == '/'

/-- Go's `filepath.Base` on a slash-separated system (no volume names): the last
element of the path, after trailing slashes are stripped; "." for the empty
path and "/" for a path of slashes only. -/
def filepath.Base (path : String) : String :=
  if path = "" then "."
  else
    -- strip trailing slashes
    let stripped := (path.data.reverse.dropWhile isPathSeparator).reverse
    -- keep what follows the last separator
    let last := (stripped.reverse.takeWhile fun c => !isPathSeparator c).reverse
    -- if empty now, the path had only slashes
    if last = [] then "/" else String.mk last

/-- The Go struct `fileInfo`, by the fields that `Stat` sets. -/
structure fileInfo where
  name : String
  data : List Byte
  mode : FileMode
  modTime : Time
  deriving DecidableEq, Repr

/-- The Go method `(*openFile).Stat`: the handle after the call, the descriptor
and the error. -/
def openFile.Stat (f : openFile) : openFile × fileInfo × Option Error :=
  (f, { name := filepath.Base f.path, data := f.data, mode := f.mode, modTime := f.modTime },
    none)

/-- What `Seek` returns, with the state it leaves behind. -/
structure SeekResult where
  /-- The handle after the call. -/
  file : openFile
  /-- The returned offset. -/
  offset : Int
  /-- The returned error (`none` is `nil`). -/
  err : Option Error
  deriving DecidableEq, Repr

/-- The Go method `(*openFile).Seek`. -/
def openFile.Seek (f : openFile) (offset : Int) (whence : Int) : SeekResult :=
  let offset :=
    if whence = 0 then offset
    else if whence = 1 then wrap64 (offset + f.offset)
    else if whence = 2 then wrap64 (offset + int64 f.data.length)
    else offset
  if offset < 0 ∨ offset > int64 f.data.length then
    ⟨f, 0, some (.PathError "seek" f.path .ErrInvalid)⟩
  else
    ⟨{ f with offset := offset }, offset, none⟩

/-- The absolute target of `Seek(offset, whence)` in exact integers: `offset`
from the start (0), from the cursor (1) or from the end (2); the `switch` has no
case for another `whence`, which leaves `offset` as given. -/
def openFile.absoluteTarget (f : openFile) (offset : Int) (whence : Int) : Int :=
  if whence = 0 then offset
  else if whence = 1 then f.offset + offset
  else if whence = 2 then (f.data.length : Int) + offset
  else offset

/-- The cursor lies within the data, and the data's length fits Go's `int`. -/
def openFile.inRange (f : openFile) : Prop :=
  0 ≤ f.offset ∧ f.offset ≤ (f.data.length : Int) ∧ (f.data.length : Int) < two63

instance (f : openFile) : Decidable f.inRange := by
  unfold openFile.inRange
  infer_instance

/-! ## Sequences of calls on a handle -/

/-- One call of a method of the handle, with its arguments. -/
inductive Call where
  | Read (b : List Byte) : Call
  | Seek (offset whence : Int) : Call
  | Stat : Call
  | Close : Call
  deriving DecidableEq, Repr

/-- The handle after one call. -/
def Call.run (f : openFile) : Call → openFile
  | .Read b => (f.Read b).file
  | .Seek offset whence => (f.Seek offset whence).file
  | .Stat => f.Stat.1
  | .Close => f.Close.1

/-- The handle after a sequence of calls, first to last. -/
def runCalls (calls : List Call) (f : openFile) : openFile :=
  calls.foldl Call.run f

/-- What a run of successive `Read` calls gives. -/
structure ChunkedRead where
  /-- The handle after the last call. -/
  file : openFile
  /-- The chunks `b[:n]` of the calls, concatenated in call order. -/
  chunks : List Byte
  /-- The number of calls that returned a nil error. -/
  successes : Nat
  deriving DecidableEq, Repr

/-- Successive `Read` calls, one per buffer, first to last. -/
def readChunks (f : openFile) : List (List Byte) → ChunkedRead
  | [] => ⟨f, [], 0⟩
  | b :: bs =>
    let r := f.Read b
    let rest := readChunks r.file bs
    ⟨rest.file, r.buf.take r.n.toNat ++ rest.chunks,
      (if r.err = none then 1 else 0) + rest.successes⟩

/-! ## Generators -/

/-- A user callback `func(f FS, file *File) error`: it may change the filesystem
and the builder, and returns an error or `nil`. -/
abbrev Callback (σ : Type) := σ → File → σ × File × Option Error

/-- The Go type `GenerateFile`. -/
abbrev GenerateFile (σ : Type) := Callback σ

/-- The Go type `ServeFile`. -/
abbrev ServeFile (σ : Type) := Callback σ

/-- One call `f.link(path, pattern, event)`. -/
structure LinkCall where
  path : String
  pattern : String
  event : Event
  deriving DecidableEq, Repr

/-- The order in which a `range` loop visits the entries of a map: unspecified in
Go, so any rearrangement of the entries. -/
structure RangeOrder where
  visit : List (Sigma fun _ : String => Event) → List (Sigma fun _ : String => Event)
  perm : ∀ l, (visit l).Perm l

/-- The range order that visits the entries as they are stored. -/
def RangeOrder.stored : RangeOrder := ⟨id, fun l => List.Perm.refl l⟩

/-- The range order that visits the stored entries back to front. -/
def RangeOrder.reversed : RangeOrder := ⟨List.reverse, fun l => List.reverse_perm l⟩

/-- What a generator's `open` returns, with its effects on the filesystem. -/
structure OpenResult (σ : Type) where
  /-- The filesystem after the call. -/
  fs : σ
  /-- The `link` calls that `open` itself made, in order. -/
  links : List LinkCall
  /-- The returned handle or error. -/
  result : Except Error openFile

/-- The loop `for to, event := range file.watch { f.link(file.path, to, event) }`:
the calls it makes and the filesystem they leave. -/
def linkAll {σ : Type} [FS σ] (range : RangeOrder) (f : σ) (file : File) : σ × List LinkCall :=
  let calls := (range.visit file.watch.entries).map fun e => LinkCall.mk file.path e.1 e.2
  (calls.foldl (fun f c => FS.link f c.path c.pattern c.event) f, calls)

/-- The Go method `GenerateFile.open`. -/
def GenerateFile.open {σ : Type} [FS σ] (fn : GenerateFile σ) (range : RangeOrder)
    (f : σ) (key relative target : String) : OpenResult σ :=
  let file := newFile target
  match fn f file with
  | (f, _, some err) => ⟨f, [], .error err⟩
  | (f, file, none) =>
    let (f, calls) := linkAll range f file
    ⟨f, calls, file.open f key relative target⟩

/-- The Go method `ServeFile.open`. -/
def ServeFile.open {σ : Type} [FS σ] (fn : ServeFile σ) (range : RangeOrder)
    (f : σ) (key relative target : String) : OpenResult σ :=
  if relative = "." then
    ⟨f, [], .error .ErrInvalid⟩
  else
    let file := newFile target
    match fn f file with
    | (f, _, some err) => ⟨f, [], .error err⟩
    | (f, file, none) =>
      let (f, calls) := linkAll range f file
      ⟨f, calls, file.open f key relative target⟩

/-- The Go interface `Generator`, by the dynamic type of its value. -/
inductive Generator (σ : Type) where
  | ofGenerateFile (fn : GenerateFile σ) : Generator σ
  | ofServeFile (fn : ServeFile σ) : Generator σ

/-- The method `open` of a `Generator` value: dispatch on its dynamic type. -/
def Generator.open {σ : Type} [FS σ] (g : Generator σ) (range : RangeOrder)
    (f : σ) (key relative target : String) : OpenResult σ :=
  match g with
  | .ofGenerateFile fn => GenerateFile.open fn range f key relative target
  | .ofServeFile fn => ServeFile.open fn range f key relative target

/-- The callback that a generator value wraps. -/
def Generator.callback {σ : Type} : Generator σ → Callback σ
  | .ofGenerateFile fn => fn
  | .ofServeFile fn => fn

/-- The Go interface `fileGenerator`. -/
structure fileGenerator (σ : Type) where
  GenerateFile : Callback σ

/-- The Go function `FileGenerator`. -/
def FileGenerator {σ : Type} (generator : fileGenerator σ) : Generator σ :=
  .ofGenerateFile generator.GenerateFile

/-- The Go interface `fileServer`. -/
structure fileServer (σ : Type) where
  ServeFile : Callback σ

/-- The Go function `FileServer`: `return GenerateFile(server.ServeFile)`. -/
def FileServer {σ : Type} (server : fileServer σ) : Generator σ :=
  .ofGenerateFile server.ServeFile

/-! ## Callbacks that use the builder's methods -/

/-- One call of a mutating method of the builder. -/
inductive BuilderOp where
  | write (data : List Byte) : BuilderOp
  | mode (mode : FileMode) : BuilderOp
  | watch (pattern : String) (event : Event) : BuilderOp
  deriving DecidableEq, Repr

/-- Perform one method call on the builder. -/
def BuilderOp.apply (file : File) : BuilderOp → File
  | .write data => file.Write data
  | .mode m => file.Mode m
  | .watch pattern event => file.Watch pattern event

/-- Perform a sequence of method calls on the builder, first to last. -/
def runOps (ops : List BuilderOp) (file : File) : File :=
  ops.foldl BuilderOp.apply file

/-- A callback that acts on the builder only through its methods: from the
filesystem and the builder's `Path()` the script gives the filesystem it leaves,
the method calls it makes on the builder, and the error it returns. -/
def scripted {σ : Type} (script : σ → String → σ × List BuilderOp × Option Error) :
    Callback σ :=
  fun f file =>
    match script f file.Path with
    | (f, ops, err) => (f, runOps ops file, err)

/-- The bytes of the `Write` calls among `ops`, in call order. -/
def written : List BuilderOp → List Byte
  | [] => []
  | .write data :: ops => data ++ written ops
  | _ :: ops => written ops

/-- The argument of the last `Mode` call among `ops`, and `m` if there is none. -/
def lastModeFrom (m : FileMode) : List BuilderOp → FileMode
  | [] => m
  | .mode m' :: ops => lastModeFrom m' ops
  | _ :: ops => lastModeFrom m ops

/-- The argument of the last `Mode` call among `ops`, the zero mode if there is none. -/
def lastMode (ops : List BuilderOp) : FileMode :=
  lastModeFrom 0 ops

/-! ## A filesystem that records what happens to it -/

/-- A filesystem state that records each `link` call and counts callback runs. -/
structure LogFS where
  links : List LinkCall
  ran : Nat
  deriving DecidableEq, Repr

instance : FS LogFS where
  link f path pattern event := { f with links := f.links ++ [⟨path, pattern, event⟩] }

/-- Record on the filesystem that a callback ran. -/
def LogFS.mark (f : LogFS) : LogFS :=
  { f with ran := f.ran + 1 }

/-! ## Failure of the callback -/

/-- Claim C1: when the callback returns an error `e`, `GenerateFile.open` (and
`ServeFile.open` with a relative path other than ".") returns no handle and
exactly `e`, makes no `link` call, and leaves the filesystem as the callback
left it, whatever the callback did to the builder. -/
theorem open_callback_error {σ : Type} [FS σ] (fn : Callback σ) (range : RangeOrder)
    (f : σ) (key relative target : String) (f' : σ) (file' : File) (e : Error)
    (h : fn f (newFile target) = (f', file', some e)) :
    GenerateFile.open fn range f key relative target = ⟨f', [], .error e⟩ ∧
    (relative ≠ "." →
      ServeFile.open fn range f key relative target = ⟨f', [], .error e⟩) := by
  refine ⟨?_, fun hrel => ?_⟩
  · simp only [GenerateFile.open, h]
  · simp only [ServeFile.open, if_neg hrel, h]

/-- Witness for C1: a callback that declares two watch entries and then fails. -/
theorem open_callback_error_witness :
    GenerateFile.open
        (scripted fun (f : LogFS) _ => (f.mark, [.watch "a" 1, .watch "b" 2], some (.other "boom")))
        RangeOrder.stored ⟨[], 0⟩ "k" "r" "t" = ⟨⟨[], 1⟩, [], .error (.other "boom")⟩ ∧
    ("r" ≠ "." →
      ServeFile.open
        (scripted fun (f : LogFS) _ => (f.mark, [.watch "a" 1, .watch "b" 2], some (.other "boom")))
        RangeOrder.stored ⟨[], 0⟩ "k" "r" "t" = ⟨⟨[], 1⟩, [], .error (.other "boom")⟩) :=
  open_callback_error _ RangeOrder.stored (⟨[], 0⟩ : LogFS) "k" "r" "t" ⟨[], 1⟩
    (runOps [.watch "a" 1, .watch "b" 2] (newFile "t")) (.other "boom") rfl

/-! ## Forwarding of the watch set -/

/-- The calls made by the link loop are the visited entries, each with the
builder's path. -/
theorem linkAll_calls {σ : Type} [FS σ] (range : RangeOrder) (f : σ) (file : File) :
    (linkAll range f file).2 =
      (range.visit file.watch.entries).map fun e => LinkCall.mk file.path e.1 e.2 := rfl

/-- On the recording filesystem, making a list of `link` calls appends exactly
these calls to the record, in order, and changes nothing else. -/
theorem logFS_foldl_link (calls : List LinkCall) (g : LogFS) :
    calls.foldl (fun f c => FS.link f c.path c.pattern c.event) g =
      ⟨g.links ++ calls, g.ran⟩ := by
  induction calls generalizing g with
  | nil => simp
  | cons c calls ih =>
    rw [List.foldl_cons, ih]
    show (⟨(g.links ++ [c]) ++ calls, g.ran⟩ : LogFS) = _
    rw [List.append_assoc]
    rfl

/-- On success `GenerateFile.open` makes the calls of the link loop. -/
theorem generateFile_open_ok {σ : Type} [FS σ] (fn : Callback σ) (range : RangeOrder)
    (f : σ) (key relative target : String) (f' : σ) (file' : File)
    (h : fn f (newFile target) = (f', file', none)) :
    GenerateFile.open fn range f key relative target =
      ⟨(linkAll range f' file').1, (linkAll range f' file').2,
        .ok ⟨target, file'.data, file'.mode, file'.modTime, 0⟩⟩ := by
  simp only [GenerateFile.open, h, File.open]

/-- On failure of the callback `GenerateFile.open` returns its error at once. -/
theorem generateFile_open_error {σ : Type} [FS σ] (fn : Callback σ) (range : RangeOrder)
    (f : σ) (key relative target : String) (f' : σ) (file' : File) (e : Error)
    (h : fn f (newFile target) = (f', file', some e)) :
    GenerateFile.open fn range f key relative target = ⟨f', [], .error e⟩ := by
  simp only [GenerateFile.open, h]

/-- The builder's methods never change its path. -/
theorem runOps_path (ops : List BuilderOp) (file : File) : (runOps ops file).path = file.path := by
  induction ops generalizing file with
  | nil => rfl
  | cons op ops ih =>
    have hstep : runOps (op :: ops) file = runOps ops (op.apply file) := rfl
    rw [hstep, ih]
    cases op <;> rfl

/-- No pattern occurs twice among the calls of the link loop. -/
theorem linkAll_nodup {σ : Type} [FS σ] (range : RangeOrder) (f : σ) (file : File) :
    ((linkAll range f file).2.map LinkCall.pattern).Nodup := by
  rw [linkAll_calls, List.map_map]
  have hkeys : ((range.visit file.watch.entries).map
      (LinkCall.pattern ∘ fun e => LinkCall.mk file.path e.1 e.2)).Perm file.watch.keys :=
    (range.perm _).map _
  exact hkeys.nodup_iff.mpr file.watch.keys_nodup

/-- The link loop makes a call exactly for the entries of the watch set. -/
theorem linkAll_mem {σ : Type} [FS σ] (range : RangeOrder) (f : σ) (file : File)
    (c : LinkCall) :
    c ∈ (linkAll range f file).2 ↔
      c.path = file.path ∧ file.watch.lookup c.pattern = some c.event := by
  rw [linkAll_calls, List.mem_map]
  constructor
  · rintro ⟨e, he, rfl⟩
    have hmem : e ∈ file.watch.entries := (range.perm _).mem_iff.mp he
    exact ⟨rfl, Option.mem_def.mp (AList.mem_lookup_iff.mpr hmem)⟩
  · rintro ⟨hp, hl⟩
    have hmem : Sigma.mk c.pattern c.event ∈ file.watch.entries :=
      AList.mem_lookup_iff.mp (Option.mem_def.mpr hl)
    refine ⟨⟨c.pattern, c.event⟩, (range.perm _).mem_iff.mpr hmem, ?_⟩
    cases c
    simp only at hp
    simp only [hp]

/-- Claim C2: when the callback succeeds, the `link` calls of `GenerateFile.open`
are, as a multiset, one call `(builder.Path(), pattern, mask)` per entry of the
builder's watch set and nothing else: no pattern occurs twice, and a call is made
exactly when the pattern maps to the mask. These calls are made on the owning
filesystem: the filesystem after `open` is the one the callback left with each of
the calls applied once, in order, and a filesystem that records its `link` calls
has gained exactly these records. For a callback that acts through the
builder's methods `builder.Path()` is the target path. A callback that declares
only `Watch("src/*.tmpl", WriteEvent)` yields the single call
`(target, "src/*.tmpl", WriteEvent)`, made once on the filesystem, and one that
declares nothing yields none and leaves the filesystem as it was. -/
theorem generateFile_open_links {σ : Type} [FS σ] (fn : Callback σ) (range : RangeOrder)
    (f : σ) (key relative target : String) (f' : σ) (file' : File)
    (h : fn f (newFile target) = (f', file', none)) :
    ((GenerateFile.open fn range f key relative target).links : Multiset LinkCall) =
        ((file'.watch.entries.map fun e => LinkCall.mk file'.Path e.1 e.2 : List LinkCall) :
          Multiset LinkCall) ∧
    ((GenerateFile.open fn range f key relative target).links.map LinkCall.pattern).Nodup ∧
    (∀ c : LinkCall, c ∈ (GenerateFile.open fn range f key relative target).links ↔
        c.path = file'.Path ∧ file'.watch.lookup c.pattern = some c.event) ∧
    (∀ script, fn = scripted script → file'.Path = target) ∧
    (∀ WriteEvent : Event,
      (GenerateFile.open (scripted fun (f : σ) _ => (f, [.watch "src/*.tmpl" WriteEvent], none))
        range f key relative target).links = [⟨target, "src/*.tmpl", WriteEvent⟩]) ∧
    (GenerateFile.open (scripted fun (f : σ) _ => (f, [], none))
        range f key relative target).links = [] ∧
    (GenerateFile.open fn range f key relative target).fs =
      (GenerateFile.open fn range f key relative target).links.foldl
        (fun f c => FS.link f c.path c.pattern c.event) f' ∧
    (∀ (fnL : Callback LogFS) (g g' : LogFS) (fileL : File),
      fnL g (newFile target) = (g', fileL, none) →
      (GenerateFile.open fnL range g key relative target).fs =
        ⟨g'.links ++ (GenerateFile.open fnL range g key relative target).links, g'.ran⟩ ∧
      (((GenerateFile.open fnL range g key relative target).fs.links.drop g'.links.length :
          List LinkCall) : Multiset LinkCall) =
        ((fileL.watch.entries.map fun e => LinkCall.mk fileL.Path e.1 e.2 : List LinkCall) :
          Multiset LinkCall)) ∧
    (∀ WriteEvent : Event,
      (GenerateFile.open (scripted fun (f : σ) _ => (f, [.watch "src/*.tmpl" WriteEvent], none))
        range f key relative target).fs = FS.link f target "src/*.tmpl" WriteEvent) ∧
    (GenerateFile.open (scripted fun (f : σ) _ => (f, [], none))
        range f key relative target).fs = f := by
  have hloop : ∀ {τ : Type} [FS τ] (range : RangeOrder) (t : τ) (file : File),
      (linkAll range t file).1 =
        (linkAll range t file).2.foldl (fun f c => FS.link f c.path c.pattern c.event) t :=
    fun _ _ _ => rfl
  have hopen := generateFile_open_ok fn range f key relative target f' file' h
  have htmpl : ∀ WriteEvent : Event,
      GenerateFile.open
          (scripted fun (f : σ) _ => (f, [BuilderOp.watch "src/*.tmpl" WriteEvent], none))
          range f key relative target =
        ⟨FS.link f target "src/*.tmpl" WriteEvent, [⟨target, "src/*.tmpl", WriteEvent⟩],
          .ok ⟨target, [], 0, 0, 0⟩⟩ := by
    intro WriteEvent
    have hrun : scripted (fun (f : σ) _ => (f, [BuilderOp.watch "src/*.tmpl" WriteEvent], none))
        f (newFile target) =
        (f, runOps [.watch "src/*.tmpl" WriteEvent] (newFile target), none) := rfl
    rw [generateFile_open_ok _ range f key relative target _ _ hrun, hloop, linkAll_calls]
    have hentries : (runOps [.watch "src/*.tmpl" WriteEvent] (newFile target)).watch.entries =
        [⟨"src/*.tmpl", WriteEvent⟩] := by
      simp [runOps, BuilderOp.apply, File.Watch, newFile, WatchMap.get]
    have hvisit := (range.perm
      (runOps [.watch "src/*.tmpl" WriteEvent] (newFile target)).watch.entries)
    rw [hentries] at hvisit ⊢
    rw [List.perm_singleton.mp hvisit]
    rfl
  have hnothing : GenerateFile.open
        (scripted fun (f : σ) _ => (f, ([] : List BuilderOp), (none : Option Error)))
        range f key relative target = ⟨f, [], .ok ⟨target, [], 0, 0, 0⟩⟩ := by
    have hrun : scripted (fun (f : σ) _ => (f, ([] : List BuilderOp), (none : Option Error)))
        f (newFile target) = (f, runOps [] (newFile target), none) := rfl
    rw [generateFile_open_ok _ range f key relative target _ _ hrun, hloop, linkAll_calls]
    have hvisit := (range.perm (runOps [] (newFile target)).watch.entries)
    have hentries : (runOps [] (newFile target)).watch.entries = [] := rfl
    rw [hentries] at hvisit ⊢
    rw [List.perm_nil.mp hvisit]
    rfl
  refine ⟨?_, ?_, ?_, ?_, ?_, ?_, ?_, ?_, ?_, ?_⟩
  · rw [hopen, linkAll_calls]
    exact Multiset.coe_eq_coe.mpr ((range.perm _).map _)
  · rw [hopen]
    exact linkAll_nodup range f' file'
  · intro c
    rw [hopen]
    exact linkAll_mem range f' file' c
  · rintro script rfl
    simp only [scripted] at h
    have hfile : file' = runOps (script f (newFile target).Path).2.1 (newFile target) :=
      (congrArg (fun r => r.2.1) h).symm
    rw [hfile, File.Path, runOps_path]
    rfl
  · intro WriteEvent
    rw [htmpl WriteEvent]
  · rw [hnothing]
  · rw [hopen]
    exact hloop range f' file'
  · intro fnL g g' fileL hL
    have hopenL := generateFile_open_ok fnL range g key relative target g' fileL hL
    have hfs : (GenerateFile.open fnL range g key relative target).fs =
        ⟨g'.links ++ (GenerateFile.open fnL range g key relative target).links, g'.ran⟩ := by
      rw [hopenL]
      show (linkAll range g' fileL).1 = _
      rw [hloop, logFS_foldl_link]
    refine ⟨hfs, ?_⟩
    rw [hfs]
    simp only [List.drop_left]
    rw [hopenL, linkAll_calls]
    exact Multiset.coe_eq_coe.mpr ((range.perm _).map _)
  · intro WriteEvent
    rw [htmpl WriteEvent]
  · rw [hnothing]

/-- Witness for C2: a callback that declares two patterns, visited back to front. -/
theorem generateFile_open_links_witness :
    (scripted fun (f : LogFS) _ => (f.mark, [.watch "a" 1, .watch "b" 2], none))
        ⟨[], 0⟩ (newFile "t") =
      (⟨[], 1⟩, runOps [.watch "a" 1, .watch "b" 2] (newFile "t"), none) ∧
    (GenerateFile.open
        (scripted fun (f : LogFS) _ => (f.mark, [.watch "a" 1, .watch "b" 2], none))
        RangeOrder.reversed ⟨[], 0⟩ "k" "r" "t").links = [⟨"t", "a", 1⟩, ⟨"t", "b", 2⟩] ∧
    ((GenerateFile.open
        (scripted fun (f : LogFS) _ => (f.mark, [.watch "a" 1, .watch "b" 2], none))
        RangeOrder.reversed ⟨[], 0⟩ "k" "r" "t").links : Multiset LinkCall) =
      (((runOps [.watch "a" 1, .watch "b" 2] (newFile "t")).watch.entries.map
        fun e => LinkCall.mk (runOps [.watch "a" 1, .watch "b" 2] (newFile "t")).Path e.1 e.2 :
          List LinkCall) : Multiset LinkCall) ∧
    (GenerateFile.open
        (scripted fun (f : LogFS) _ => (f.mark, [.watch "a" 1, .watch "b" 2], none))
        RangeOrder.reversed ⟨[], 0⟩ "k" "r" "t").fs = ⟨[⟨"t", "a", 1⟩, ⟨"t", "b", 2⟩], 1⟩ :=
  ⟨rfl, by decide,
    (generateFile_open_links _ RangeOrder.reversed (⟨[], 0⟩ : LogFS) "k" "r" "t" ⟨[], 1⟩
      (runOps [.watch "a" 1, .watch "b" 2] (newFile "t")) rfl).1,
    by decide⟩

/-! ## The root exclusion of serving generators -/

/-- Claim C3: `ServeFile(fn).open` with relative path "." fails with
`fs.ErrInvalid`, returns no handle, makes no `link` call and leaves the
filesystem untouched, whatever `fn` is: `fn` is not invoked, so a callback that
would record its run on the filesystem leaves no record. -/
theorem serveFile_open_root {σ : Type} [FS σ] (fn : Callback σ) (range : RangeOrder)
    (f : σ) (key target : String) :
    ServeFile.open fn range f key "." target = ⟨f, [], .error .ErrInvalid⟩ ∧
    Error.isInvalid .ErrInvalid = true ∧
    ∀ (ops : List BuilderOp) (err : Option Error) (g : LogFS),
      (ServeFile.open (scripted fun (f : LogFS) _ => (f.mark, ops, err))
        range g key "." target).fs.ran = g.ran := by
  refine ⟨?_, rfl, fun ops err g => ?_⟩
  · simp only [ServeFile.open, if_true]
  · simp only [ServeFile.open, if_true]

/-- Evaluation for C4: the generator built by `FileServer` is a `GenerateFile`, so
opening it with relative path "." runs the server's `ServeFile` method (the
filesystem records one run) and returns a handle on what it wrote; the same
callback as a `ServeFile` value is rejected with `fs.ErrInvalid` without running. -/
theorem fileServer_open_root_runs_callback :
    (∀ (s : fileServer LogFS) (range : RangeOrder) (f : LogFS) (key relative target : String),
      (FileServer s).open range f key relative target =
        GenerateFile.open s.ServeFile range f key relative target) ∧
    (FileServer (⟨scripted fun (f : LogFS) _ => (f.mark, [.write [120]], none)⟩ :
        fileServer LogFS)).open RangeOrder.stored ⟨[], 0⟩ "k" "." "t" =
      ⟨⟨[], 1⟩, [], .ok ⟨"t", [120], 0, 0, 0⟩⟩ ∧
    (Generator.ofServeFile (scripted fun (f : LogFS) _ => (f.mark, [.write [120]], none))).open
        RangeOrder.stored ⟨[], 0⟩ "k" "." "t" =
      ⟨⟨[], 0⟩, [], .error .ErrInvalid⟩ :=
  ⟨fun _ _ _ _ _ _ => rfl, rfl, rfl⟩

/-! ## Arithmetic of `int64` -/

/-- Wrapping leaves every value of the `int64` range as it is. -/
theorem wrap64_eq (x : Int) (hlo : -two63 ≤ x) (hhi : x < two63) : wrap64 x = x := by
  simp only [wrap64, two63, two64] at *
  omega

/-- Converting a length that fits `int64` is exact. -/
theorem int64_eq (n : Nat) (h : (n : Int) < two63) : int64 n = n := by
  apply wrap64_eq _ _ h
  simp only [two63]
  omega

/-! ## Seek -/

/-- `Seek` commits a target that lies within the data. -/
theorem seek_ok (f : openFile) (offset whence : Int) (hlen : (f.data.length : Int) < two63)
    (h0 : 0 ≤ f.absoluteTarget offset whence)
    (h1 : f.absoluteTarget offset whence ≤ (f.data.length : Int)) :
    f.Seek offset whence =
      ⟨{ f with offset := f.absoluteTarget offset whence }, f.absoluteTarget offset whence,
        none⟩ := by
  have hcomp : (if whence = 0 then offset
      else if whence = 1 then wrap64 (offset + f.offset)
      else if whence = 2 then wrap64 (offset + (f.data.length : Int))
      else offset) = f.absoluteTarget offset whence := by
    simp only [openFile.absoluteTarget] at *
    split_ifs at * <;> first
      | rfl
      | (rw [wrap64_eq] <;> simp only [two63] at * <;> omega)
  simp only [openFile.Seek, int64_eq _ hlen, hcomp]
  rw [if_neg (by omega)]

/-- `Seek` rejects a target outside the data and changes nothing. -/
theorem seek_fail (f : openFile) (offset whence : Int) (hf : f.inRange)
    (hlo : -two63 ≤ offset) (hhi : offset < two63)
    (ht : f.absoluteTarget offset whence < 0 ∨
      f.absoluteTarget offset whence > (f.data.length : Int)) :
    f.Seek offset whence = ⟨f, 0, some (.PathError "seek" f.path .ErrInvalid)⟩ := by
  obtain ⟨hc0, hc1, hlen⟩ := hf
  simp only [openFile.Seek, int64_eq _ hlen]
  rw [if_pos]
  simp only [openFile.absoluteTarget] at ht
  simp only [wrap64, two63, two64] at *
  split_ifs at * <;> omega

/-! ## Read -/

/-- With the cursor before the end, `Read` copies as much as fits and advances. -/
theorem read_ok (f : openFile) (b : List Byte) (hf : f.inRange)
    (hc : f.offset < (f.data.length : Int)) :
    f.Read b =
      ⟨{ f with offset := f.offset + (min b.length (f.data.length - f.offset.toNat) : Nat) },
        (f.data.drop f.offset.toNat).take (min b.length (f.data.length - f.offset.toNat)) ++
          b.drop (min b.length (f.data.length - f.offset.toNat)),
        (min b.length (f.data.length - f.offset.toNat) : Nat), none⟩ := by
  obtain ⟨hc0, hc1, hlen⟩ := hf
  have hn : ((min b.length (f.data.length - f.offset.toNat) : Nat) : Int) < two63 := by
    have : min b.length (f.data.length - f.offset.toNat) ≤ f.data.length := by omega
    omega
  have hadv : wrap64 (f.offset + (min b.length (f.data.length - f.offset.toNat) : Nat)) =
      f.offset + (min b.length (f.data.length - f.offset.toNat) : Nat) := by
    apply wrap64_eq
    · simp only [two63] at *
      omega
    · have : ((min b.length (f.data.length - f.offset.toNat) : Nat) : Int) ≤
          (f.data.length : Int) - f.offset := by omega
      omega
  simp only [openFile.Read, int64_eq _ hlen, copy, List.length_drop]
  rw [if_neg (by omega), if_neg (by omega)]
  simp only [int64_eq _ hn, hadv]

/-- With the cursor at the end, `Read` reports end-of-stream and changes nothing. -/
theorem read_eof (f : openFile) (b : List Byte) (hlen : (f.data.length : Int) < two63)
    (hc : f.offset = (f.data.length : Int)) :
    f.Read b = ⟨f, b, 0, some .EOF⟩ := by
  simp only [openFile.Read, int64_eq _ hlen]
  rw [if_pos (by omega)]

/-- Claim C6: for a handle with its cursor within the data, let `t` be the
absolute target of `Seek(offset, whence)`: `offset`, `cursor + offset` or
`len(data) + offset` for `whence` 0, 1 or 2; when `0 <= t <= len(data)`, `Seek`
returns `(t, nil)` and the cursor becomes `t` (so `t = len(data)` is accepted);
nothing else of the handle changes. -/
theorem seek_within_data (f : openFile) (offset whence : Int) (hf : f.inRange)
    (h0 : 0 ≤ f.absoluteTarget offset whence)
    (h1 : f.absoluteTarget offset whence ≤ (f.data.length : Int)) :
    f.Seek offset whence =
      ⟨{ f with offset := f.absoluteTarget offset whence }, f.absoluteTarget offset whence,
        none⟩ ∧
    (whence = 0 → f.absoluteTarget offset whence = offset) ∧
    (whence = 1 → f.absoluteTarget offset whence = f.offset + offset) ∧
    (whence = 2 → f.absoluteTarget offset whence = (f.data.length : Int) + offset) := by
  refine ⟨seek_ok f offset whence hf.2.2 h0 h1, ?_, ?_, ?_⟩ <;> intro h <;> subst h <;> rfl

/-- Witness for C6: from cursor 1 of 3 bytes, `Seek(2, current)` reaches the end. -/
theorem seek_within_data_witness :
    (⟨"t", [1, 2, 3], 0, 0, 1⟩ : openFile).Seek 2 1 = ⟨⟨"t", [1, 2, 3], 0, 0, 3⟩, 3, none⟩ :=
  (seek_within_data ⟨"t", [1, 2, 3], 0, 0, 1⟩ 2 1 (by decide) (by decide) (by decide)).1

/-- Claim C7: for a handle with its cursor within the data, a `Seek` whose
absolute target is below 0 or above `len(data)` returns offset 0 with a
`PathError` wrapping `fs.ErrInvalid` and leaves the handle as it was: a following
`Seek(0, current)` returns the old cursor and a following `Read` does what it
would have done before the attempt. -/
theorem seek_out_of_range (f : openFile) (offset whence : Int) (hf : f.inRange)
    (hlo : -two63 ≤ offset) (hhi : offset < two63)
    (ht : f.absoluteTarget offset whence < 0 ∨
      f.absoluteTarget offset whence > (f.data.length : Int)) :
    f.Seek offset whence = ⟨f, 0, some (.PathError "seek" f.path .ErrInvalid)⟩ ∧
    (Error.PathError "seek" f.path .ErrInvalid).isInvalid = true ∧
    (f.Seek offset whence).file.Seek 0 1 = ⟨f, f.offset, none⟩ ∧
    ∀ b, (f.Seek offset whence).file.Read b = f.Read b := by
  have hfail := seek_fail f offset whence hf hlo hhi ht
  refine ⟨hfail, rfl, ?_, fun b => by rw [hfail]⟩
  rw [hfail]
  have hcur : f.absoluteTarget 0 1 = f.offset := by
    simp [openFile.absoluteTarget]
  have hseek := seek_ok f 0 1 hf.2.2 (by rw [hcur]; exact hf.1) (by rw [hcur]; exact hf.2.1)
  rw [hcur] at hseek
  exact hseek

/-- Witness for C7: from cursor 1 of 3 bytes, `Seek(3, current)` overshoots. -/
theorem seek_out_of_range_witness :
    (⟨"t", [1, 2, 3], 0, 0, 1⟩ : openFile).Seek 3 1 =
      ⟨⟨"t", [1, 2, 3], 0, 0, 1⟩, 0, some (.PathError "seek" "t" .ErrInvalid)⟩ :=
  (seek_out_of_range ⟨"t", [1, 2, 3], 0, 0, 1⟩ 3 1 (by decide) (by decide) (by decide)
    (by decide)).1

/-- Claim C8: with the cursor `c` before the end of the data, `Read(b)` returns
`(n, nil)` with `n = min(len(data) - c, len(b))` (0 for the empty buffer), puts
`data[c .. c+n)` into the first `n` positions of `b`, leaves the other positions
of `b`, its length and the handle's data unchanged, and moves the cursor to
`c + n`. -/
theorem read_copies (f : openFile) (b : List Byte) (hf : f.inRange)
    (hc : f.offset < (f.data.length : Int)) :
    (f.Read b).n = (min (f.data.length - f.offset.toNat) b.length : Nat) ∧
    (f.Read b).err = none ∧
    (f.Read b).buf.length = b.length ∧
    (∀ i, i < min (f.data.length - f.offset.toNat) b.length →
      (f.Read b).buf[i]? = f.data[f.offset.toNat + i]?) ∧
    (∀ i, min (f.data.length - f.offset.toNat) b.length ≤ i → (f.Read b).buf[i]? = b[i]?) ∧
    (f.Read b).file =
      { f with offset := f.offset + (min (f.data.length - f.offset.toNat) b.length : Nat) } ∧
    (f.Read b).file.data = f.data := by
  rw [read_ok f b hf hc, Nat.min_comm b.length]
  refine ⟨rfl, rfl, ?_, ?_, ?_, rfl, rfl⟩
  · simp only [List.length_append, List.length_take, List.length_drop]
    omega
  · intro i hi
    rw [List.getElem?_append_left (by
      simp only [List.length_take, List.length_drop]
      omega)]
    rw [List.getElem?_take_of_lt hi, List.getElem?_drop]
  · intro i hi
    have hlt : (List.take (min (f.data.length - f.offset.toNat) b.length)
        (List.drop f.offset.toNat f.data)).length =
        min (f.data.length - f.offset.toNat) b.length := by
      simp only [List.length_take, List.length_drop]
      omega
    rw [List.getElem?_append_right (by omega), hlt, List.getElem?_drop]
    congr 1
    omega

/-- Witness for C8: from cursor 1 of 4 bytes, a 2-byte buffer receives bytes 1 and 2. -/
theorem read_copies_witness :
    ((⟨"t", [10, 11, 12, 13], 0, 0, 1⟩ : openFile).Read [0, 0]).n = (2 : Nat) ∧
    ((⟨"t", [10, 11, 12, 13], 0, 0, 1⟩ : openFile).Read [0, 0]).buf = [11, 12] ∧
    ((⟨"t", [10, 11, 12, 13], 0, 0, 1⟩ : openFile).Read [0, 0]).file =
      ⟨"t", [10, 11, 12, 13], 0, 0, 3⟩ :=
  ⟨(read_copies ⟨"t", [10, 11, 12, 13], 0, 0, 1⟩ [0, 0] (by decide) (by decide)).1,
    by decide, by decide⟩

/-- Claim C9: with the cursor within the data, `Read` at `cursor = len(data)`
(also over empty data) returns `(0, io.EOF)`, which is not an invalid-argument
error, and leaves handle and buffer unchanged; and from any such cursor
`Seek(0, end)` succeeds with `len(data)` and the `Read` after it returns
`(0, io.EOF)`. -/
theorem read_at_end (f : openFile) (b : List Byte) (hf : f.inRange) :
    (f.offset = (f.data.length : Int) → f.Read b = ⟨f, b, 0, some .EOF⟩) ∧
    Error.EOF.isInvalid = false ∧
    Error.EOF ≠ .PathError "read" f.path .ErrInvalid ∧
    f.Seek 0 2 = ⟨{ f with offset := (f.data.length : Int) }, (f.data.length : Int), none⟩ ∧
    (f.Seek 0 2).file.Read b =
      ⟨{ f with offset := (f.data.length : Int) }, b, 0, some .EOF⟩ := by
  have hend : f.absoluteTarget 0 2 = (f.data.length : Int) := by
    simp [openFile.absoluteTarget]
  have hseek := seek_ok f 0 2 hf.2.2 (by rw [hend]; omega) (by rw [hend])
  rw [hend] at hseek
  refine ⟨fun hc => read_eof f b hf.2.2 hc, rfl, by simp, hseek, ?_⟩
  rw [hseek]
  exact read_eof _ b hf.2.2 rfl

/-- Witness for C9: a handle over empty data. -/
theorem read_at_end_witness :
    (⟨"t", [], 0, 0, 0⟩ : openFile).inRange ∧
    (⟨"t", [], 0, 0, 0⟩ : openFile).Read [7, 7] = ⟨⟨"t", [], 0, 0, 0⟩, [7, 7], 0, some .EOF⟩ :=
  ⟨by decide, (read_at_end ⟨"t", [], 0, 0, 0⟩ [7, 7] (by decide)).1 rfl⟩

/-! ## Content written by the callback -/

/-- The builder's data after a sequence of method calls: the old data followed by
the written bytes, in call order. -/
theorem runOps_data (ops : List BuilderOp) (file : File) :
    (runOps ops file).data = file.data ++ written ops := by
  induction ops generalizing file with
  | nil => simp [runOps, written]
  | cons op ops ih =>
    have hstep : runOps (op :: ops) file = runOps ops (op.apply file) := rfl
    rw [hstep, ih]
    cases op <;> simp [BuilderOp.apply, File.Write, File.Mode, File.Watch, written]

/-- The handle returned for a successful callback that acts through the
builder's methods. -/
theorem generateFile_open_scripted {σ : Type} [FS σ]
    (script : σ → String → σ × List BuilderOp × Option Error) (range : RangeOrder)
    (f : σ) (key relative target : String) (f' : σ) (ops : List BuilderOp)
    (h : script f target = (f', ops, none)) :
    (GenerateFile.open (scripted script) range f key relative target).result =
      .ok ⟨target, written ops, (runOps ops (newFile target)).mode, 0, 0⟩ := by
  have hrun : scripted script f (newFile target) =
      (f', runOps ops (newFile target), none) := by
    simp only [scripted, File.Path, newFile, h]
  rw [generateFile_open_ok _ range f key relative target _ _ hrun, runOps_data]
  have hmod : ∀ (l : List BuilderOp) (file : File), (runOps l file).modTime = file.modTime := by
    intro l
    induction l with
    | nil => intro file; rfl
    | cons op l ih =>
      intro file
      have hstep : runOps (op :: l) file = runOps l (op.apply file) := rfl
      rw [hstep, ih]
      cases op <;> rfl
  simp only [hmod, newFile, List.nil_append]

/-- Counterexample for C5 as stated (`n >= 0`): a successful callback that never
calls `Write` gives a handle on empty data, and the first `Read` into a 6-byte
buffer returns `(0, io.EOF)`, not `(0, nil)`. -/
theorem full_read_without_writes :
    (GenerateFile.open (scripted fun (f : LogFS) _ => (f, [], none)) RangeOrder.stored
        ⟨[], 0⟩ "k" "r" "t").result = .ok ⟨"t", [], 0, 0, 0⟩ ∧
    (6 : Nat) ≥ (written []).length ∧
    (⟨"t", [], 0, 0, 0⟩ : openFile).Read [0, 0, 0, 0, 0, 0] =
      ⟨⟨"t", [], 0, 0, 0⟩, [0, 0, 0, 0, 0, 0], 0, some .EOF⟩ ∧
    ((⟨"t", [], 0, 0, 0⟩ : openFile).Read [0, 0, 0, 0, 0, 0]).err ≠ none :=
  ⟨rfl, by decide, by decide, by decide⟩

/-- Claim C5, amended: for the method calls `ops` of a succeeding callback (any
chunking of the writes, any `Mode`/`Watch` calls in between), the handle returned
by `open` starts at offset 0 over the concatenation of the written bytes. When at
least one byte was written, a `Read` into a buffer at least that long returns
the whole concatenation in the buffer's first positions with a nil error, and the
next `Read` returns `(0, io.EOF)`; when no byte was written, the first `Read`
already returns `(0, io.EOF)`. -/
theorem full_read_after_writes {σ : Type} [FS σ]
    (script : σ → String → σ × List BuilderOp × Option Error) (range : RangeOrder)
    (f : σ) (key relative target : String) (f' : σ) (ops : List BuilderOp)
    (h : script f target = (f', ops, none))
    (hlen : ((written ops).length : Int) < two63)
    (b b2 : List Byte) (hb : (written ops).length ≤ b.length) :
    (GenerateFile.open (scripted script) range f key relative target).result =
      .ok ⟨target, written ops, (runOps ops (newFile target)).mode, 0, 0⟩ ∧
    (written ops ≠ [] →
      (⟨target, written ops, (runOps ops (newFile target)).mode, 0, 0⟩ : openFile).Read b =
        ⟨⟨target, written ops, (runOps ops (newFile target)).mode, 0,
            ((written ops).length : Int)⟩,
          written ops ++ b.drop (written ops).length, ((written ops).length : Int), none⟩ ∧
      (⟨target, written ops, (runOps ops (newFile target)).mode, 0,
          ((written ops).length : Int)⟩ : openFile).Read b2 =
        ⟨⟨target, written ops, (runOps ops (newFile target)).mode, 0,
            ((written ops).length : Int)⟩, b2, 0, some .EOF⟩) ∧
    (written ops = [] →
      (⟨target, written ops, (runOps ops (newFile target)).mode, 0, 0⟩ : openFile).Read b =
        ⟨⟨target, written ops, (runOps ops (newFile target)).mode, 0, 0⟩, b, 0,
          some .EOF⟩) := by
  refine ⟨generateFile_open_scripted script range f key relative target f' ops h, ?_, ?_⟩
  · intro hne
    have hpos : 0 < (written ops).length := List.length_pos.mpr hne
    have hin : (⟨target, written ops, (runOps ops (newFile target)).mode, 0, 0⟩ :
        openFile).inRange := ⟨le_refl _, Int.ofNat_nonneg _, hlen⟩
    constructor
    · rw [read_ok _ b hin (Int.ofNat_lt.mpr hpos)]
      simp only [Int.toNat_zero, Nat.sub_zero, List.drop_zero, zero_add,
        Nat.min_eq_right hb, List.take_length]
    · exact read_eof _ b2 hlen rfl
  · intro hnil
    refine read_eof _ b ?_ ?_
    · exact hlen
    · simp only [hnil, List.length_nil, Nat.cast_zero]

/-- Witness for C5: `Write("abc")`, a `Mode` call, `Write("def")`, then a read
into a 6-byte buffer and a second read. -/
theorem full_read_after_writes_witness :
    (GenerateFile.open
        (scripted fun (f : LogFS) _ =>
          (f, [.write [97, 98, 99], .mode 420, .write [100, 101, 102]], none))
        RangeOrder.stored ⟨[], 0⟩ "k" "r" "t").result =
      .ok ⟨"t", [97, 98, 99, 100, 101, 102], 420, 0, 0⟩ ∧
    (⟨"t", [97, 98, 99, 100, 101, 102], 420, 0, 0⟩ : openFile).Read [0, 0, 0, 0, 0, 0] =
      ⟨⟨"t", [97, 98, 99, 100, 101, 102], 420, 0, 6⟩, [97, 98, 99, 100, 101, 102], 6, none⟩ ∧
    (⟨"t", [97, 98, 99, 100, 101, 102], 420, 0, 6⟩ : openFile).Read [0, 0, 0, 0, 0, 0] =
      ⟨⟨"t", [97, 98, 99, 100, 101, 102], 420, 0, 6⟩, [0, 0, 0, 0, 0, 0], 0, some .EOF⟩ :=
  have hthm := full_read_after_writes
    (fun (f : LogFS) _ => (f, [.write [97, 98, 99], .mode 420, .write [100, 101, 102]], none))
    RangeOrder.stored ⟨[], 0⟩ "k" "r" "t" ⟨[], 0⟩ _ rfl (by decide)
    [0, 0, 0, 0, 0, 0] [0, 0, 0, 0, 0, 0] (by decide)
  ⟨hthm.1, (hthm.2.1 (by decide)).1, (hthm.2.1 (by decide)).2⟩

/-! ## Merging of watch declarations -/

/-- The mask stored for a pattern right after `Watch`: the old mask with the new
bits added. -/
theorem watch_lookup_self (file : File) (p : String) (e : Event) :
    (file.Watch p e).watch.lookup p = some (WatchMap.get file.watch p ||| e) := by
  simp only [File.Watch, AList.lookup_insert]

/-- The mask read for a pattern right after `Watch`. -/
theorem watch_get_self (file : File) (p : String) (e : Event) :
    WatchMap.get (file.Watch p e).watch p = WatchMap.get file.watch p ||| e := by
  simp only [WatchMap.get, watch_lookup_self, Option.getD_some]

/-- After `Watch(p, e)` the watch set has exactly one entry for `p`. -/
theorem watch_count_self (file : File) (p : String) (e : Event) :
    (file.Watch p e).watch.keys.count p = 1 := by
  apply List.count_eq_one_of_mem (file.Watch p e).watch.keys_nodup
  rw [← AList.mem_keys]
  simp only [File.Watch, AList.mem_insert, true_or]

/-- A pattern that was never declared reads as the zero mask. -/
theorem watchMap_get_absent (m : WatchMap) (p : String) (h : p ∉ m) : WatchMap.get m p = 0 := by
  simp only [WatchMap.get, AList.lookup_eq_none.mpr h, Option.getD_none]

/-- In a list without repeated keys, the elements that share the key of a member
are that member alone. -/
theorem filter_key_eq_singleton {α κ : Type} [DecidableEq κ] (key : α → κ) (l : List α)
    (hnd : (l.map key).Nodup) (x : α) (hx : x ∈ l) :
    l.filter (fun y => decide (key y = key x)) = [x] := by
  induction l with
  | nil => cases hx
  | cons a l ih =>
    rw [List.map_cons, List.nodup_cons] at hnd
    rcases List.mem_cons.mp hx with rfl | hmem
    · have hnone : l.filter (fun y => decide (key y = key x)) = [] := by
        rw [List.filter_eq_nil_iff]
        intro y hy hkey
        exact hnd.1 (List.mem_map.mpr ⟨y, hy, of_decide_eq_true hkey⟩)
      rw [List.filter_cons_of_pos (by simp), hnone]
    · have hne : ¬ key a = key x := fun hkey =>
        hnd.1 (hkey ▸ List.mem_map.mpr ⟨x, hmem, rfl⟩)
      rw [List.filter_cons_of_neg (by simpa using hne)]
      exact ih hnd.2 hmem

/-- Counterexample for C10 as stated (every builder): on a builder that already
watches "p" with mask 4, `Watch("p", 1)` then `Watch("p", 2)` leaves mask 7, not
`1 OR 2 = 3`, and the one call forwarded to the filesystem carries 7. -/
theorem watch_twice_on_declared_pattern :
    ((((newFile "t").Watch "p" 4).Watch "p" 1).Watch "p" 2).watch.lookup "p" = some 7 ∧
    ((1 : Event) ||| 2) = 3 ∧
    (GenerateFile.open
        (scripted fun (f : LogFS) _ => (f, [.watch "p" 4, .watch "p" 1, .watch "p" 2], none))
        RangeOrder.stored ⟨[], 0⟩ "k" "r" "t").links = [⟨"t", "p", 7⟩] ∧
    (GenerateFile.open
        (scripted fun (f : LogFS) _ => (f, [.watch "p" 4, .watch "p" 1, .watch "p" 2], none))
        RangeOrder.stored ⟨[], 0⟩ "k" "r" "t").fs = ⟨[⟨"t", "p", 7⟩], 0⟩ :=
  ⟨by decide, by decide, by decide, by decide⟩

/-- Claim C10, amended: after `Watch(p, e1)` then `Watch(p, e2)` the watch set
holds exactly one entry for `p`, with mask `m OR e1 OR e2` where `m` is the mask
`p` had before (0 when absent); so it is `e1 OR e2` when `p` was absent, as on a
fresh builder. On success exactly one `link` call is forwarded for `p`, carrying
that mask: it is the only call for `p` among the calls of `open`, these calls are
what `open` does to the filesystem the callback left, and a filesystem that
records its `link` calls has gained exactly this one record for `p`. A first
`Watch(p, e)` on an absent pattern creates one entry with mask `e`. -/
theorem watch_twice {σ : Type} [FS σ] (file : File) (p : String) (e1 e2 : Event) :
    ((file.Watch p e1).Watch p e2).watch.lookup p =
      some (WatchMap.get file.watch p ||| e1 ||| e2) ∧
    ((file.Watch p e1).Watch p e2).watch.keys.count p = 1 ∧
    (p ∉ file.watch → ((file.Watch p e1).Watch p e2).watch.lookup p = some (e1 ||| e2)) ∧
    (((newFile file.path).Watch p e1).Watch p e2).watch.entries = [⟨p, e1 ||| e2⟩] ∧
    (∀ (fn : Callback σ) (range : RangeOrder) (f f' : σ) (key relative target : String),
      fn f (newFile target) = (f', (file.Watch p e1).Watch p e2, none) →
      (GenerateFile.open fn range f key relative target).links.filter
          (fun c => decide (c.pattern = p)) =
        [⟨file.Path, p, WatchMap.get file.watch p ||| e1 ||| e2⟩] ∧
      (GenerateFile.open fn range f key relative target).fs =
        (GenerateFile.open fn range f key relative target).links.foldl
          (fun f c => FS.link f c.path c.pattern c.event) f') ∧
    (∀ e, p ∉ file.watch →
      (file.Watch p e).watch.lookup p = some e ∧ (file.Watch p e).watch.keys.count p = 1) ∧
    (∀ (fnL : Callback LogFS) (range : RangeOrder) (g g' : LogFS)
        (key relative target : String),
      fnL g (newFile target) = (g', (file.Watch p e1).Watch p e2, none) →
      (GenerateFile.open fnL range g key relative target).fs.links.filter
          (fun c => decide (c.pattern = p)) =
        g'.links.filter (fun c => decide (c.pattern = p)) ++
          [⟨file.Path, p, WatchMap.get file.watch p ||| e1 ||| e2⟩] ∧
      (GenerateFile.open fnL range g key relative target).fs.ran = g'.ran) := by
  have hloop : ∀ {τ : Type} [FS τ] (range : RangeOrder) (t : τ) (file : File),
      (linkAll range t file).1 =
        (linkAll range t file).2.foldl (fun f c => FS.link f c.path c.pattern c.event) t :=
    fun _ _ _ => rfl
  have hone : ∀ {τ : Type} [FS τ] (range : RangeOrder) (t : τ),
      (linkAll range t ((file.Watch p e1).Watch p e2)).2.filter
          (fun c => decide (c.pattern = p)) =
        [⟨file.Path, p, WatchMap.get file.watch p ||| e1 ||| e2⟩] := by
    intro τ _ range t
    have hlook : ((file.Watch p e1).Watch p e2).watch.lookup p =
        some (WatchMap.get file.watch p ||| e1 ||| e2) := by
      rw [watch_lookup_self, watch_get_self]
    have hx : (⟨file.Path, p, WatchMap.get file.watch p ||| e1 ||| e2⟩ : LinkCall) ∈
        (linkAll range t ((file.Watch p e1).Watch p e2)).2 :=
      (linkAll_mem range t _ _).mpr ⟨rfl, hlook⟩
    exact filter_key_eq_singleton LinkCall.pattern _ (linkAll_nodup range t _) _ hx
  have hget := watch_get_self file p e1
  have hlook : ((file.Watch p e1).Watch p e2).watch.lookup p =
      some (WatchMap.get file.watch p ||| e1 ||| e2) := by
    rw [watch_lookup_self, hget]
  refine ⟨hlook, watch_count_self _ p e2, ?_, ?_, ?_, ?_, ?_⟩
  · intro habs
    rw [hlook, watchMap_get_absent _ p habs, Nat.zero_or]
  · have hg := watch_get_self (newFile file.path) p e1
    have h0 : WatchMap.get (newFile file.path).watch p = 0 :=
      watchMap_get_absent _ p (AList.not_mem_empty p)
    rw [h0, Nat.zero_or] at hg
    simp only [File.Watch] at hg ⊢
    rw [hg, AList.insert_insert]
    simp only [newFile, AList.insert_empty, AList.singleton_entries]
  · intro fn range f f' key relative target h
    rw [generateFile_open_ok fn range f key relative target f' _ h]
    exact ⟨hone range f', hloop range f' _⟩
  · intro e habs
    refine ⟨?_, watch_count_self _ p e⟩
    rw [watch_lookup_self, watchMap_get_absent _ p habs, Nat.zero_or]
  · intro fnL range g g' key relative target hL
    rw [generateFile_open_ok fnL range g key relative target g' _ hL]
    have hfs : (linkAll range g' ((file.Watch p e1).Watch p e2)).1 =
        ⟨g'.links ++ (linkAll range g' ((file.Watch p e1).Watch p e2)).2, g'.ran⟩ := by
      rw [hloop, logFS_foldl_link]
    simp only [hfs, List.filter_append, hone range g', and_self]

/-- Witness for C10: two declarations of "p" on a fresh builder, forwarded as one
call with mask `1 OR 2`, which the recording filesystem receives once. -/
theorem watch_twice_witness :
    (GenerateFile.open
        (scripted fun (f : LogFS) _ => (f, [.watch "p" 1, .watch "p" 2], none))
        RangeOrder.stored ⟨[], 0⟩ "k" "r" "t").links.filter
          (fun c => decide (c.pattern = "p")) = [⟨"t", "p", 0 ||| 1 ||| 2⟩] ∧
    (GenerateFile.open
        (scripted fun (f : LogFS) _ => (f, [.watch "p" 1, .watch "p" 2], none))
        RangeOrder.stored ⟨[], 0⟩ "k" "r" "t").fs = ⟨[⟨"t", "p", 3⟩], 0⟩ :=
  ⟨((watch_twice (newFile "t") "p" 1 2).2.2.2.2.1
      (scripted fun (f : LogFS) _ => (f, [.watch "p" 1, .watch "p" 2], none))
      RangeOrder.stored ⟨[], 0⟩ ⟨[], 0⟩ "k" "r" "t" rfl).1,
    by decide⟩

/-! ## The generator constructions compared -/

/-- The handle or error of `GenerateFile.open` does not depend on the order in
which the watch set is visited, and neither do the `link` calls as a multiset. -/
theorem generateFile_open_range {σ : Type} [FS σ] (fn : Callback σ)
    (range range2 : RangeOrder) (f : σ) (key relative target : String) :
    (GenerateFile.open fn range f key relative target).result =
      (GenerateFile.open fn range2 f key relative target).result ∧
    ((GenerateFile.open fn range f key relative target).links : Multiset LinkCall) =
      ((GenerateFile.open fn range2 f key relative target).links : Multiset LinkCall) := by
  rcases h : fn f (newFile target) with ⟨f', file', _ | e⟩
  · rw [generateFile_open_ok fn range f key relative target f' file' h,
      generateFile_open_ok fn range2 f key relative target f' file' h]
    refine ⟨rfl, ?_⟩
    simp only [linkAll_calls]
    exact Multiset.coe_eq_coe.mpr
      (((range.perm _).trans (range2.perm _).symm).map _)
  · rw [(generateFile_open_error fn range f key relative target f' file' e h),
      (generateFile_open_error fn range2 f key relative target f' file' e h)]
    exact ⟨rfl, rfl⟩

/-- Claim C13: for a relative path other than ".", `ServeFile(fn).open` is
`GenerateFile(fn).open`: the same handle or error, the same `link` calls and the
same filesystem afterwards (with the watch set visited in another order, still
the same handle or error and the same multiset of calls); and
`FileGenerator(g).open` is `GenerateFile(g.GenerateFile).open` on all inputs. -/
theorem serveFile_open_eq_generateFile {σ : Type} [FS σ] (fn : Callback σ)
    (range range2 : RangeOrder) (f : σ) (key relative target : String)
    (hrel : relative ≠ ".") :
    ServeFile.open fn range f key relative target =
      GenerateFile.open fn range f key relative target ∧
    (ServeFile.open fn range f key relative target).result =
      (GenerateFile.open fn range2 f key relative target).result ∧
    ((ServeFile.open fn range f key relative target).links : Multiset LinkCall) =
      ((GenerateFile.open fn range2 f key relative target).links : Multiset LinkCall) ∧
    ∀ (g : fileGenerator σ) (rel : String),
      (FileGenerator g).open range f key rel target =
        GenerateFile.open g.GenerateFile range f key rel target := by
  have hsame : ServeFile.open fn range f key relative target =
      GenerateFile.open fn range f key relative target := by
    simp only [ServeFile.open, if_neg hrel, GenerateFile.open]
  refine ⟨hsame, ?_, ?_, fun g rel => rfl⟩
  · rw [hsame]
    exact (generateFile_open_range fn range range2 f key relative target).1
  · rw [hsame]
    exact (generateFile_open_range fn range range2 f key relative target).2

/-- Witness for C13: a callback that declares two patterns, opened beneath the
mount point as a `ServeFile` and as a `GenerateFile`. -/
theorem serveFile_open_eq_generateFile_witness :
    ServeFile.open
        (scripted fun (f : LogFS) _ => (f.mark, [.watch "a" 1, .write [120], .watch "b" 2], none))
        RangeOrder.stored ⟨[], 0⟩ "k" "x" "t" =
      GenerateFile.open
        (scripted fun (f : LogFS) _ => (f.mark, [.watch "a" 1, .write [120], .watch "b" 2], none))
        RangeOrder.stored ⟨[], 0⟩ "k" "x" "t" :=
  (serveFile_open_eq_generateFile _ RangeOrder.stored RangeOrder.reversed (⟨[], 0⟩ : LogFS)
    "k" "x" "t" (by decide)).1

/-! ## Stat and Close -/

/-- Claim C15: on every handle state `Close` and `Stat` return a nil error and
leave the handle (cursor, data, mode, path, modification time) as it was, so a
`Read` or `Seek` after them does what it would have done without them. -/
theorem stat_close_transition_free (f : openFile) :
    f.Close = (f, none) ∧
    f.Stat.1 = f ∧ f.Stat.2.2 = none ∧
    (∀ b, f.Close.1.Read b = f.Read b) ∧
    (∀ offset whence, f.Close.1.Seek offset whence = f.Seek offset whence) ∧
    (∀ b, f.Stat.1.Read b = f.Read b) ∧
    (∀ offset whence, f.Stat.1.Seek offset whence = f.Seek offset whence) ∧
    (∀ calls, (∀ c ∈ calls, c = Call.Stat ∨ c = Call.Close) → runCalls calls f = f) := by
  refine ⟨rfl, rfl, rfl, fun _ => rfl, fun _ _ => rfl, fun _ => rfl, fun _ _ => rfl, ?_⟩
  intro calls
  induction calls with
  | nil => intro _; rfl
  | cons c calls ih =>
    intro hall
    have hstep : runCalls (c :: calls) f = runCalls calls (Call.run f c) := rfl
    have hc : Call.run f c = f := by
      rcases hall c (List.mem_cons_self _ _) with rfl | rfl <;> rfl
    rw [hstep, hc]
    exact ih fun c' hc' => hall c' (List.mem_cons_of_mem _ hc')

/-! ## Seek: rewinding, wraparound and unknown whence -/

/-- Claim C14: from any cursor within the data, `Seek(0, start)` succeeds with
new offset 0, and the `Read(b)` after it returns the first
`min(len(data), len(b))` bytes of the data with a nil error, or `(0, io.EOF)`
when the data is empty; the outcome is the same whatever the cursor was. -/
theorem seek_start_then_read (f : openFile) (b : List Byte) (hf : f.inRange) :
    f.Seek 0 0 = ⟨{ f with offset := 0 }, 0, none⟩ ∧
    (f.data = [] → (f.Seek 0 0).file.Read b = ⟨{ f with offset := 0 }, b, 0, some .EOF⟩) ∧
    (f.data ≠ [] → (f.Seek 0 0).file.Read b =
      ⟨{ f with offset := (min f.data.length b.length : Nat) },
        f.data.take (min f.data.length b.length) ++ b.drop (min f.data.length b.length),
        (min f.data.length b.length : Nat), none⟩) ∧
    (∀ c : Int, (({ f with offset := c } : openFile).Seek 0 0).file.Read b =
      (f.Seek 0 0).file.Read b) := by
  have hrewind : ∀ g : openFile, (g.data.length : Int) < two63 →
      g.Seek 0 0 = ⟨{ g with offset := 0 }, 0, none⟩ := by
    intro g hg
    have htarget : g.absoluteTarget 0 0 = 0 := by simp [openFile.absoluteTarget]
    have hseek := seek_ok g 0 0 hg (by rw [htarget]) (by rw [htarget]; omega)
    rw [htarget] at hseek
    exact hseek
  refine ⟨hrewind f hf.2.2, ?_, ?_, ?_⟩
  · intro hnil
    rw [hrewind f hf.2.2]
    exact read_eof _ b hf.2.2 (by simp only [hnil, List.length_nil, Nat.cast_zero])
  · intro hne
    have hpos : 0 < f.data.length := List.length_pos.mpr hne
    rw [hrewind f hf.2.2]
    have hin : ({ f with offset := 0 } : openFile).inRange :=
      ⟨le_refl _, Int.ofNat_nonneg _, hf.2.2⟩
    rw [read_ok _ b hin (Int.ofNat_lt.mpr hpos)]
    simp only [Int.toNat_zero, Nat.sub_zero, List.drop_zero, zero_add, Nat.min_comm b.length]
  · intro c
    rw [hrewind f hf.2.2, hrewind { f with offset := c } hf.2.2]

/-- Witness for C14: from cursor 3 of 4 bytes, rewinding and reading 2 bytes. -/
theorem seek_start_then_read_witness :
    ((⟨"t", [10, 11, 12, 13], 0, 0, 3⟩ : openFile).Seek 0 0).file.Read [0, 0] =
      ⟨⟨"t", [10, 11, 12, 13], 0, 0, 2⟩, [10, 11], 2, none⟩ :=
  (seek_start_then_read ⟨"t", [10, 11, 12, 13], 0, 0, 3⟩ [0, 0] (by decide)).2.2.1 (by decide)

/-- Claim C17: for a cursor within the data, an `int64` offset and `whence`
current (1) or end (2), `Seek` succeeds exactly when the exact sum
`base + offset` lies in `[0, len(data)]`, and then commits and returns that sum;
the sum never underflows `int64`, and when it overflows the wrapped sum is
negative and `Seek` fails with a `PathError` wrapping `fs.ErrInvalid`, the handle
unchanged. -/
theorem seek_no_wraparound (f : openFile) (offset whence : Int) (hf : f.inRange)
    (hlo : -two63 ≤ offset) (hhi : offset < two63) (hw : whence = 1 ∨ whence = 2) :
    (whence = 1 → f.absoluteTarget offset whence = f.offset + offset) ∧
    (whence = 2 → f.absoluteTarget offset whence = (f.data.length : Int) + offset) ∧
    ((f.Seek offset whence).err = none ↔
      0 ≤ f.absoluteTarget offset whence ∧
        f.absoluteTarget offset whence ≤ (f.data.length : Int)) ∧
    (0 ≤ f.absoluteTarget offset whence ∧
        f.absoluteTarget offset whence ≤ (f.data.length : Int) →
      f.Seek offset whence =
        ⟨{ f with offset := f.absoluteTarget offset whence }, f.absoluteTarget offset whence,
          none⟩) ∧
    -two63 ≤ f.absoluteTarget offset whence ∧
    (two63 ≤ f.absoluteTarget offset whence →
      wrap64 (f.absoluteTarget offset whence) < 0 ∧
      f.Seek offset whence = ⟨f, 0, some (.PathError "seek" f.path .ErrInvalid)⟩) := by
  have h1 : whence = 1 → f.absoluteTarget offset whence = f.offset + offset := by
    intro h; subst h; rfl
  have h2 : whence = 2 → f.absoluteTarget offset whence = (f.data.length : Int) + offset := by
    intro h; subst h; rfl
  have hbase : -two63 ≤ f.absoluteTarget offset whence ∧
      f.absoluteTarget offset whence < two63 + two63 := by
    obtain ⟨hc0, hc1, hlen⟩ := hf
    rcases hw with h | h
    · rw [h1 h]; simp only [two63] at *; omega
    · rw [h2 h]; simp only [two63] at *; omega
  refine ⟨h1, h2, ?_, ?_, hbase.1, ?_⟩
  · constructor
    · intro herr
      by_contra hout
      have ht : f.absoluteTarget offset whence < 0 ∨
          f.absoluteTarget offset whence > (f.data.length : Int) := by omega
      rw [seek_fail f offset whence hf hlo hhi ht] at herr
      cases herr
    · intro hin
      rw [seek_ok f offset whence hf.2.2 hin.1 hin.2]
  · intro hin
    exact seek_ok f offset whence hf.2.2 hin.1 hin.2
  · intro hover
    constructor
    · have hb := hbase.2
      simp only [wrap64, two63, two64] at *
      omega
    · apply seek_fail f offset whence hf hlo hhi
      right
      have := hf.2.2
      omega

/-- Witness for C17: from cursor 1 of 3 bytes, `Seek(2^63 - 1, current)` has the
exact sum `2^63`, which wraps to `-2^63`; the call fails and the cursor stays. -/
theorem seek_no_wraparound_witness :
    wrap64 ((⟨"t", [1, 2, 3], 0, 0, 1⟩ : openFile).absoluteTarget 9223372036854775807 1) < 0 ∧
    (⟨"t", [1, 2, 3], 0, 0, 1⟩ : openFile).Seek 9223372036854775807 1 =
      ⟨⟨"t", [1, 2, 3], 0, 0, 1⟩, 0, some (.PathError "seek" "t" .ErrInvalid)⟩ :=
  (seek_no_wraparound ⟨"t", [1, 2, 3], 0, 0, 1⟩ 9223372036854775807 1 (by decide) (by decide)
    (by decide) (by decide)).2.2.2.2.2 (by decide)

/-- Claim C18: a `whence` other than 0, 1 and 2 (negative ones included) is not
rejected: `Seek(offset, whence)` is `Seek(offset, start)`; it succeeds with new
cursor `offset` exactly when `0 <= offset <= len(data)`, and otherwise fails with
a `PathError` wrapping `fs.ErrInvalid`, the handle unchanged. -/
theorem seek_other_whence (f : openFile) (offset whence : Int)
    (hlen : (f.data.length : Int) < two63)
    (hw : whence ≠ 0 ∧ whence ≠ 1 ∧ whence ≠ 2) :
    f.Seek offset whence = f.Seek offset 0 ∧
    (0 ≤ offset ∧ offset ≤ (f.data.length : Int) →
      f.Seek offset whence = ⟨{ f with offset := offset }, offset, none⟩) ∧
    (offset < 0 ∨ offset > (f.data.length : Int) →
      f.Seek offset whence = ⟨f, 0, some (.PathError "seek" f.path .ErrInvalid)⟩) ∧
    ((f.Seek offset whence).err = none ↔ 0 ≤ offset ∧ offset ≤ (f.data.length : Int)) ∧
    (Error.PathError "seek" f.path .ErrInvalid).isInvalid = true := by
  have hsame : f.Seek offset whence = f.Seek offset 0 := by
    simp only [openFile.Seek, if_neg hw.1, if_neg hw.2.1, if_neg hw.2.2, if_true]
  have hok : 0 ≤ offset ∧ offset ≤ (f.data.length : Int) →
      f.Seek offset whence = ⟨{ f with offset := offset }, offset, none⟩ := by
    intro hin
    rw [hsame]
    simp only [openFile.Seek, if_true, int64_eq _ hlen]
    rw [if_neg (by omega)]
  have hfail : offset < 0 ∨ offset > (f.data.length : Int) →
      f.Seek offset whence = ⟨f, 0, some (.PathError "seek" f.path .ErrInvalid)⟩ := by
    intro hout
    rw [hsame]
    simp only [openFile.Seek, if_true, int64_eq _ hlen]
    rw [if_pos hout]
  refine ⟨hsame, hok, hfail, ?_, rfl⟩
  constructor
  · intro herr
    by_contra hout
    have ht : offset < 0 ∨ offset > (f.data.length : Int) := by omega
    rw [hfail ht] at herr
    cases herr
  · intro hin
    rw [hok hin]

/-- Witness for C18: `whence = -7` on 3 bytes: offset 2 is committed. -/
theorem seek_other_whence_witness :
    (⟨"t", [1, 2, 3], 0, 0, 1⟩ : openFile).Seek 2 (-7) =
      ⟨⟨"t", [1, 2, 3], 0, 0, 2⟩, 2, none⟩ :=
  (seek_other_whence ⟨"t", [1, 2, 3], 0, 0, 1⟩ 2 (-7) (by decide) (by decide)).2.1 (by decide)

/-! ## The cursor invariant -/

/-- A handle comes out of a generator only after its callback succeeded, and it
starts at offset 0 over the builder's data. -/
theorem generator_open_handle {σ : Type} [FS σ] (g : Generator σ) (range : RangeOrder)
    (f : σ) (key relative target : String) (h : openFile)
    (hopen : (g.open range f key relative target).result = .ok h) :
    ∃ f' file', g.callback f (newFile target) = (f', file', none) ∧
      h = ⟨target, file'.data, file'.mode, file'.modTime, 0⟩ := by
  have hgen : ∀ fn : Callback σ,
      (GenerateFile.open fn range f key relative target).result = .ok h →
      ∃ f' file', fn f (newFile target) = (f', file', none) ∧
        h = ⟨target, file'.data, file'.mode, file'.modTime, 0⟩ := by
    intro fn hres
    rcases hrun : fn f (newFile target) with ⟨f', file', _ | e⟩
    · rw [generateFile_open_ok fn range f key relative target f' file' hrun] at hres
      exact ⟨f', file', rfl, (Except.ok.inj hres).symm⟩
    · rw [generateFile_open_error fn range f key relative target f' file' e hrun] at hres
      cases hres
  cases g with
  | ofGenerateFile fn => exact hgen fn hopen
  | ofServeFile fn =>
    by_cases hrel : relative = "."
    · simp only [Generator.open, ServeFile.open, if_pos hrel] at hopen
      cases hopen
    · have hsame : ServeFile.open fn range f key relative target =
          GenerateFile.open fn range f key relative target := by
        simp only [ServeFile.open, if_neg hrel, GenerateFile.open]
      simp only [Generator.open, hsame] at hopen
      exact hgen fn hopen

/-- No call changes the path, data, mode or modification time of a handle. -/
theorem call_run_frame (f : openFile) (c : Call) :
    (Call.run f c).path = f.path ∧ (Call.run f c).data = f.data ∧
    (Call.run f c).mode = f.mode ∧ (Call.run f c).modTime = f.modTime := by
  cases c with
  | Read b =>
    simp only [Call.run, openFile.Read]
    split_ifs <;> exact ⟨rfl, rfl, rfl, rfl⟩
  | Seek offset whence =>
    simp only [Call.run, openFile.Seek]
    split_ifs <;> exact ⟨rfl, rfl, rfl, rfl⟩
  | Stat => exact ⟨rfl, rfl, rfl, rfl⟩
  | Close => exact ⟨rfl, rfl, rfl, rfl⟩

/-- No sequence of calls changes the path, data, mode or modification time. -/
theorem runCalls_frame (calls : List Call) (f : openFile) :
    (runCalls calls f).path = f.path ∧ (runCalls calls f).data = f.data ∧
    (runCalls calls f).mode = f.mode ∧ (runCalls calls f).modTime = f.modTime := by
  induction calls generalizing f with
  | nil => exact ⟨rfl, rfl, rfl, rfl⟩
  | cons c calls ih =>
    have hstep : runCalls (c :: calls) f = runCalls calls (Call.run f c) := rfl
    obtain ⟨h1, h2, h3, h4⟩ := call_run_frame f c
    obtain ⟨i1, i2, i3, i4⟩ := ih (Call.run f c)
    rw [hstep]
    exact ⟨i1.trans h1, i2.trans h2, i3.trans h3, i4.trans h4⟩

/-- Each call keeps the cursor within the data, whatever its arguments. -/
theorem call_run_inRange (f : openFile) (c : Call) (hf : f.inRange) :
    (Call.run f c).inRange := by
  have hlen := hf.2.2
  cases c with
  | Read b =>
    by_cases hc : f.offset < (f.data.length : Int)
    · simp only [Call.run, read_ok f b hf hc, openFile.inRange]
      have hmin : min b.length (f.data.length - f.offset.toNat) ≤
          f.data.length - f.offset.toNat := Nat.min_le_right _ _
      have := hf.1
      refine ⟨by omega, by omega, hlen⟩
    · have heq : f.offset = (f.data.length : Int) := le_antisymm hf.2.1 (not_lt.mp hc)
      simp only [Call.run, read_eof f b hlen heq]
      exact hf
  | Seek offset whence =>
    have hany : ∀ o : Int,
        (if o < 0 ∨ o > int64 f.data.length then
          (⟨f, 0, some (.PathError "seek" f.path .ErrInvalid)⟩ : SeekResult)
        else ⟨{ f with offset := o }, o, none⟩).file.inRange := by
      intro o
      rw [int64_eq _ hlen]
      split_ifs with hout
      · exact hf
      · exact ⟨by simp only []; omega, by simp only []; omega, hlen⟩
    exact hany _
  | Stat => exact hf
  | Close => exact hf

/-- Every sequence of calls keeps the cursor within the data. -/
theorem runCalls_inRange (calls : List Call) (f : openFile) (hf : f.inRange) :
    (runCalls calls f).inRange := by
  induction calls generalizing f with
  | nil => exact hf
  | cons c calls ih => exact ih (Call.run f c) (call_run_inRange f c hf)

/-- Claim C12: a handle returned by a successful `open` starts at offset 0, and
after every call of every finite sequence of `Read`, `Seek` (with any arguments,
succeeding or failing), `Stat` and `Close` calls the cursor satisfies
`0 <= offset <= len(data)` and the data is what it was. -/
theorem cursor_invariant {σ : Type} [FS σ] (g : Generator σ) (range : RangeOrder)
    (f : σ) (key relative target : String) (h : openFile)
    (hopen : (g.open range f key relative target).result = .ok h)
    (hlen : (h.data.length : Int) < two63) (calls : List Call) :
    h.offset = 0 ∧
    ∀ k : Nat, 0 ≤ (runCalls (calls.take k) h).offset ∧
      (runCalls (calls.take k) h).offset ≤ ((runCalls (calls.take k) h).data.length : Int) ∧
      (runCalls (calls.take k) h).data = h.data := by
  obtain ⟨f', file', -, hh⟩ := generator_open_handle g range f key relative target h hopen
  have h0 : h.offset = 0 := by rw [hh]
  have hin : h.inRange := ⟨by rw [h0], by rw [h0]; exact Int.ofNat_nonneg _, hlen⟩
  refine ⟨h0, fun k => ?_⟩
  have hk := runCalls_inRange (calls.take k) h hin
  exact ⟨hk.1, hk.2.1, (runCalls_frame (calls.take k) h).2.1⟩

/-- Witness for C12: a handle on 3 bytes after a read, two seeks out of range,
`Stat` and `Close`. -/
theorem cursor_invariant_witness :
    (runCalls ([.Read [0, 0], .Seek 5 1, .Seek (-4) 2, .Stat, .Close].take 5)
        ⟨"t", [1, 2, 3], 0, 0, 0⟩).data = [1, 2, 3] :=
  ((cursor_invariant (Generator.ofGenerateFile
      (scripted fun (f : LogFS) _ => (f, [.write [1, 2, 3]], none)))
    RangeOrder.stored ⟨[], 0⟩ "k" "r" "t" ⟨"t", [1, 2, 3], 0, 0, 0⟩ rfl (by decide)
    [.Read [0, 0], .Seek 5 1, .Seek (-4) 2, .Stat, .Close]).2 5).2.2

/-- Claim C16: on a handle returned by a successful `open`, after any sequence
of `Read`, `Seek`, `Stat` and `Close` calls a `Read` returns either `(n, nil)`
with `n >= 0` or `(0, io.EOF)`, never an invalid-argument error. Conversely, on
a handle state with a negative offset `Read` returns 0 with a `PathError`
wrapping `fs.ErrInvalid`, which is not `io.EOF`. -/
theorem read_never_invalid {σ : Type} [FS σ] (g : Generator σ) (range : RangeOrder)
    (f : σ) (key relative target : String) (h : openFile)
    (hopen : (g.open range f key relative target).result = .ok h)
    (hlen : (h.data.length : Int) < two63) (calls : List Call) (b : List Byte) :
    ((((runCalls calls h).Read b).err = none ∧ 0 ≤ ((runCalls calls h).Read b).n) ∨
      (((runCalls calls h).Read b).n = 0 ∧ ((runCalls calls h).Read b).err = some .EOF)) ∧
    (∀ e, ((runCalls calls h).Read b).err = some e → e.isInvalid = false) ∧
    (∀ s : openFile, (s.data.length : Int) < two63 → s.offset < 0 →
      s.Read b = ⟨s, b, 0, some (.PathError "read" s.path .ErrInvalid)⟩ ∧
      (Error.PathError "read" s.path .ErrInvalid).isInvalid = true ∧
      Error.PathError "read" s.path .ErrInvalid ≠ .EOF) := by
  obtain ⟨f', file', -, hh⟩ := generator_open_handle g range f key relative target h hopen
  have h0 : h.offset = 0 := by rw [hh]
  have hin : h.inRange := ⟨by rw [h0], by rw [h0]; exact Int.ofNat_nonneg _, hlen⟩
  have hs := runCalls_inRange calls h hin
  have hcases : ((runCalls calls h).Read b).err = none ∧ 0 ≤ ((runCalls calls h).Read b).n ∨
      ((runCalls calls h).Read b).n = 0 ∧ ((runCalls calls h).Read b).err = some .EOF := by
    by_cases hc : (runCalls calls h).offset < ((runCalls calls h).data.length : Int)
    · left
      rw [read_ok _ b hs hc]
      exact ⟨rfl, Int.ofNat_nonneg _⟩
    · right
      have heq : (runCalls calls h).offset = ((runCalls calls h).data.length : Int) :=
        le_antisymm hs.2.1 (not_lt.mp hc)
      rw [read_eof _ b hs.2.2 heq]
      exact ⟨rfl, rfl⟩
  refine ⟨hcases, ?_, ?_⟩
  · intro e he
    rcases hcases with ⟨hnone, -⟩ | ⟨-, heof⟩
    · rw [hnone] at he
      cases he
    · rw [heof] at he
      cases he
      rfl
  · intro s hslen hneg
    refine ⟨?_, rfl, by simp⟩
    simp only [openFile.Read, int64_eq _ hslen]
    rw [if_neg (by omega), if_pos hneg]

/-- Witness for C16: on a handle over 3 bytes, a read after a failed seek, and a
read at the end. -/
theorem read_never_invalid_witness :
    (((runCalls [.Seek (-1) 0, .Read [0, 0]] ⟨"t", [1, 2, 3], 0, 0, 0⟩).Read [0, 0]).err = none ∧
      0 ≤ ((runCalls [.Seek (-1) 0, .Read [0, 0]] ⟨"t", [1, 2, 3], 0, 0, 0⟩).Read [0, 0]).n) ∨
    (((runCalls [.Seek (-1) 0, .Read [0, 0]] ⟨"t", [1, 2, 3], 0, 0, 0⟩).Read [0, 0]).n = 0 ∧
      ((runCalls [.Seek (-1) 0, .Read [0, 0]] ⟨"t", [1, 2, 3], 0, 0, 0⟩).Read [0, 0]).err =
        some .EOF) :=
  (read_never_invalid (Generator.ofGenerateFile
      (scripted fun (f : LogFS) _ => (f, [.write [1, 2, 3]], none)))
    RangeOrder.stored ⟨[], 0⟩ "k" "r" "t" ⟨"t", [1, 2, 3], 0, 0, 0⟩ rfl (by decide)
    [.Seek (-1) 0, .Read [0, 0]] [0, 0]).1

/-! ## The descriptor returned by Stat -/

/-- The builder's mode after a sequence of method calls. -/
theorem runOps_mode (ops : List BuilderOp) (file : File) :
    (runOps ops file).mode = lastModeFrom file.mode ops := by
  induction ops generalizing file with
  | nil => rfl
  | cons op ops ih =>
    have hstep : runOps (op :: ops) file = runOps ops (op.apply file) := rfl
    rw [hstep, ih]
    cases op <;> rfl

/-- The builder's methods never change its modification time. -/
theorem runOps_modTime (ops : List BuilderOp) (file : File) :
    (runOps ops file).modTime = file.modTime := by
  induction ops generalizing file with
  | nil => rfl
  | cons op ops ih =>
    have hstep : runOps (op :: ops) file = runOps ops (op.apply file) := rfl
    rw [hstep, ih]
    cases op <;> rfl

/-- Without a `Mode` call the mode stays. -/
theorem lastModeFrom_no_mode (m : FileMode) (ops : List BuilderOp)
    (h : ∀ op ∈ ops, ∀ m', op ≠ .mode m') : lastModeFrom m ops = m := by
  induction ops with
  | nil => rfl
  | cons op ops ih =>
    have hrest := ih fun op' hop' => h op' (List.mem_cons_of_mem _ hop')
    cases op with
    | write d => exact hrest
    | mode m' => exact absurd rfl (h _ (List.mem_cons_self _ _) m')
    | watch p e => exact hrest

/-- The calls before a `Mode` call do not matter for the final mode. -/
theorem lastModeFrom_append_mode (m m' : FileMode) (pre post : List BuilderOp) :
    lastModeFrom m (pre ++ .mode m' :: post) = lastModeFrom m' post := by
  induction pre generalizing m with
  | nil => rfl
  | cons op pre ih => cases op <;> exact ih _

/-- Without a `Write` call nothing is written. -/
theorem written_no_write (ops : List BuilderOp) (h : ∀ op ∈ ops, ∀ d, op ≠ .write d) :
    written ops = [] := by
  induction ops with
  | nil => rfl
  | cons op ops ih =>
    have hrest := ih fun op' hop' => h op' (List.mem_cons_of_mem _ hop')
    cases op with
    | write d => exact absurd rfl (h _ (List.mem_cons_self _ _) d)
    | mode m => exact hrest
    | watch p e => exact hrest

/-- `takeWhile` stops at the first element that fails the test. -/
theorem takeWhile_append_stop {α : Type} (p : α → Bool) (l r : List α) (x : α)
    (hl : ∀ a ∈ l, p a = true) (hx : p x = false) : (l ++ x :: r).takeWhile p = l := by
  induction l with
  | nil => simp [List.takeWhile, hx]
  | cons a l ih =>
    rw [List.cons_append, List.takeWhile_cons_of_pos (hl a (List.mem_cons_self _ _)),
      ih fun a' ha' => hl a' (List.mem_cons_of_mem _ ha')]

/-- `filepath.Base` of a path that ends in a non-empty, slash-free segment after a
slash is that segment. -/
theorem base_last_segment (dir seg : List Char) (hne : seg ≠ [])
    (hseg : ∀ c ∈ seg, c ≠ '/') :
    filepath.Base (String.mk (dir ++ '/' :: seg)) = String.mk seg := by
  have hpath : String.mk (dir ++ '/' :: seg) ≠ "" := by
    intro h
    have hdata := congrArg String.data h
    simp at hdata
  have hrev : (dir ++ '/' :: seg).reverse = seg.reverse ++ '/' :: dir.reverse := by
    simp
  have hnotsep : ∀ c ∈ seg.reverse, isPathSeparator c = false := by
    intro c hc
    simpa [isPathSeparator] using hseg c (List.mem_reverse.mp hc)
  have hdrop : (seg.reverse ++ '/' :: dir.reverse).dropWhile isPathSeparator =
      seg.reverse ++ '/' :: dir.reverse := by
    cases hs : seg.reverse with
    | nil => exact absurd (List.reverse_eq_nil_iff.mp hs) hne
    | cons a r =>
      have ha : isPathSeparator a = false := hnotsep a (by rw [hs]; exact List.mem_cons_self _ _)
      rw [List.cons_append, List.dropWhile_cons_of_neg (by simp [ha])]
  have htake : (seg.reverse ++ '/' :: dir.reverse).takeWhile (fun c => !isPathSeparator c) =
      seg.reverse :=
    takeWhile_append_stop _ _ _ _ (fun c hc => by simp [hnotsep c hc])
      (by simp [isPathSeparator])
  simp only [filepath.Base, if_neg hpath, hrev, hdrop, List.reverse_reverse, htake,
    if_neg hne]

/-- Claim C11: on a handle returned by a successful `open` whose callback made
the method calls `ops`, `Stat` succeeds and returns a descriptor whose name is
`filepath.Base` of the target (the last slash-separated segment), whose data are
the bytes written, so that its size is their total number (0 without a `Write`),
and whose mode is the argument of the last `Mode` call (the zero mode without
one); the descriptor is the same after any sequence of calls, at any cursor,
and when `Stat` is repeated. -/
theorem stat_descriptor {σ : Type} [FS σ] (g : Generator σ)
    (script : σ → String → σ × List BuilderOp × Option Error) (range : RangeOrder)
    (f : σ) (key relative target : String) (f' : σ) (ops : List BuilderOp) (h : openFile)
    (hg : g.callback = scripted script) (hrun : script f target = (f', ops, none))
    (hopen : (g.open range f key relative target).result = .ok h) :
    h.Stat = (h, ⟨filepath.Base target, written ops, lastMode ops, 0⟩, none) ∧
    h.Stat.2.1.name = filepath.Base h.path ∧
    (∀ dir seg : List Char, seg ≠ [] → (∀ c ∈ seg, c ≠ '/') →
      target = String.mk (dir ++ '/' :: seg) → h.Stat.2.1.name = String.mk seg) ∧
    h.Stat.2.1.data.length = (written ops).length ∧
    ((∀ op ∈ ops, ∀ d, op ≠ .write d) → h.Stat.2.1.data.length = 0) ∧
    ((∀ op ∈ ops, ∀ m, op ≠ .mode m) → h.Stat.2.1.mode = 0) ∧
    (∀ (pre post : List BuilderOp) (m : FileMode), ops = pre ++ .mode m :: post →
      (∀ op ∈ post, ∀ m', op ≠ .mode m') → h.Stat.2.1.mode = m) ∧
    (∀ calls, (runCalls calls h).Stat.2 = h.Stat.2) ∧
    (∀ c : Int, ({ h with offset := c } : openFile).Stat.2 = h.Stat.2) ∧
    h.Stat.1.Stat = h.Stat := by
  obtain ⟨f₁, file₁, hcb, hh⟩ := generator_open_handle g range f key relative target h hopen
  have hscript : scripted script f (newFile target) =
      (f', runOps ops (newFile target), none) := by
    simp only [scripted, File.Path, newFile, hrun]
  rw [hg, hscript] at hcb
  have hfile : file₁ = runOps ops (newFile target) := (congrArg (fun r => r.2.1) hcb).symm
  have hhandle : h = ⟨target, written ops, lastMode ops, 0, 0⟩ := by
    rw [hh, hfile, runOps_data, runOps_mode, runOps_modTime]
    simp only [newFile, List.nil_append, lastMode]
  have hstat : h.Stat = (h, ⟨filepath.Base target, written ops, lastMode ops, 0⟩, none) := by
    rw [hhandle]
    rfl
  have hinfo : h.Stat.2.1 = ⟨filepath.Base target, written ops, lastMode ops, 0⟩ := by
    rw [hstat]
  refine ⟨hstat, rfl, ?_, ?_, ?_, ?_, ?_, ?_, fun c => rfl, rfl⟩
  · intro dir seg hne hseg htarget
    rw [hinfo, htarget]
    exact base_last_segment dir seg hne hseg
  · rw [hinfo]
  · intro hnone
    rw [hinfo]
    simp only [written_no_write ops hnone, List.length_nil]
  · intro hnone
    rw [hinfo]
    exact lastModeFrom_no_mode 0 ops hnone
  · intro pre post m hops hpost
    rw [hinfo]
    simp only [lastMode, hops, lastModeFrom_append_mode]
    exact lastModeFrom_no_mode m post hpost
  · intro calls
    obtain ⟨h1, h2, h3, h4⟩ := runCalls_frame calls h
    simp only [openFile.Stat, h1, h2, h3, h4]

/-- Witness for C11: the callback writes 3 bytes and sets the mode twice; the
handle is opened at "a/b/c.txt". -/
theorem stat_descriptor_witness :
    (⟨"a/b/c.txt", [1, 2, 3], 420, 0, 0⟩ : openFile).Stat =
      (⟨"a/b/c.txt", [1, 2, 3], 420, 0, 0⟩,
        ⟨filepath.Base "a/b/c.txt", written [.mode 384, .write [1, 2], .mode 420, .write [3]],
          lastMode [.mode 384, .write [1, 2], .mode 420, .write [3]], 0⟩, none) ∧
    filepath.Base "a/b/c.txt" = "c.txt" :=
  ⟨(stat_descriptor
      (Generator.ofServeFile (scripted fun (f : LogFS) _ =>
        (f, [.mode 384, .write [1, 2], .mode 420, .write [3]], none)))
      (fun (f : LogFS) _ => (f, [.mode 384, .write [1, 2], .mode 420, .write [3]], none))
      RangeOrder.stored ⟨[], 0⟩ "k" "c.txt" "a/b/c.txt" ⟨[], 0⟩ _
      ⟨"a/b/c.txt", [1, 2, 3], 420, 0, 0⟩ rfl rfl rfl).1, by decide⟩

/-! ## Chunked reading -/

/-- One `Read` on a handle with its cursor within the data: the cursor stays
within the unchanged data and does not move back, the chunk read is the data
between the old and the new cursor, the call succeeds exactly before the end,
and a successful call with a non-empty buffer moves the cursor. -/
theorem read_step (f : openFile) (b : List Byte) (hf : f.inRange) :
    (f.Read b).file.inRange ∧ (f.Read b).file.data = f.data ∧
    f.offset ≤ (f.Read b).file.offset ∧
    f.data.drop f.offset.toNat =
      (f.Read b).buf.take (f.Read b).n.toNat ++ f.data.drop (f.Read b).file.offset.toNat ∧
    ((f.Read b).err = none ↔ f.offset < (f.data.length : Int)) ∧
    ((f.Read b).err = none → b ≠ [] → f.offset + 1 ≤ (f.Read b).file.offset) := by
  obtain ⟨hc0, hc1, hlen⟩ := hf
  by_cases hc : f.offset < (f.data.length : Int)
  · rw [read_ok f b ⟨hc0, hc1, hlen⟩ hc]
    have hmin : min b.length (f.data.length - f.offset.toNat) ≤
        f.data.length - f.offset.toNat := Nat.min_le_right _ _
    have hnat : (f.offset + (min b.length (f.data.length - f.offset.toNat) : Nat)).toNat =
        f.offset.toNat + min b.length (f.data.length - f.offset.toNat) := by omega
    have htake : ((f.data.drop f.offset.toNat).take
        (min b.length (f.data.length - f.offset.toNat))).length =
        min b.length (f.data.length - f.offset.toNat) := by
      simp only [List.length_take, List.length_drop]
      omega
    refine ⟨⟨by simp only []; omega, by simp only []; omega, hlen⟩, rfl,
      by simp only []; omega, ?_, ⟨fun _ => hc, fun _ => rfl⟩, ?_⟩
    · simp only [Int.toNat_ofNat, hnat]
      rw [List.take_left' htake, ← List.drop_drop, List.take_append_drop]
    · intro _ hb
      have hbpos : 0 < b.length := List.length_pos.mpr hb
      simp only []
      omega
  · have heq : f.offset = (f.data.length : Int) := le_antisymm hc1 (not_lt.mp hc)
    rw [read_eof f b hlen heq]
    refine ⟨⟨hc0, hc1, hlen⟩, rfl, le_refl _, ?_, ?_, ?_⟩
    · simp only [Int.toNat_zero, List.take_zero, List.nil_append]
    · constructor
      · intro h
        cases h
      · intro h
        exact absurd h hc
    · intro h
      cases h

/-- Successive reads into non-empty buffers: the handle stays in range over the
same data, the chunks are the data between the first and the last cursor, each
success moved the cursor by at least 1, and the cursor has reached the end or
moved by at least the number of buffers. -/
theorem readChunks_spec (f : openFile) (bs : List (List Byte)) (hf : f.inRange)
    (hne : ∀ b ∈ bs, b ≠ []) :
    (readChunks f bs).file.inRange ∧ (readChunks f bs).file.data = f.data ∧
    f.data.drop f.offset.toNat =
      (readChunks f bs).chunks ++ f.data.drop (readChunks f bs).file.offset.toNat ∧
    f.offset + ((readChunks f bs).successes : Int) ≤ (readChunks f bs).file.offset ∧
    ((readChunks f bs).file.offset = (f.data.length : Int) ∨
      f.offset + (bs.length : Int) ≤ (readChunks f bs).file.offset) := by
  induction bs generalizing f with
  | nil =>
    refine ⟨hf, rfl, ?_, ?_, Or.inr ?_⟩ <;> simp [readChunks]
  | cons b bs ih =>
    obtain ⟨hin, hdata, hmono, hchunk, herr, hadv⟩ := read_step f b hf
    obtain ⟨iin, idata, ichunk, isucc, iend⟩ :=
      ih (f.Read b).file hin fun b' hb' => hne b' (List.mem_cons_of_mem _ hb')
    have hb : b ≠ [] := hne b (List.mem_cons_self _ _)
    have hunfold : readChunks f (b :: bs) =
        ⟨(readChunks (f.Read b).file bs).file,
          (f.Read b).buf.take (f.Read b).n.toNat ++ (readChunks (f.Read b).file bs).chunks,
          (if (f.Read b).err = none then 1 else 0) +
            (readChunks (f.Read b).file bs).successes⟩ := rfl
    rw [hunfold]
    simp only []
    rw [hdata] at idata ichunk iend
    refine ⟨iin, idata, ?_, ?_, ?_⟩
    · rw [hchunk, ichunk, List.append_assoc]
    · by_cases he : (f.Read b).err = none
      · have := hadv he hb
        rw [if_pos he]
        push_cast
        omega
      · rw [if_neg he]
        push_cast
        omega
    · rcases iend with hend | hmove
      · exact Or.inl hend
      · by_cases he : (f.Read b).err = none
        · right
          have := hadv he hb
          simp only [List.length_cons]
          push_cast
          omega
        · left
          have hatend : ¬ f.offset < (f.data.length : Int) := fun hlt => he (herr.mpr hlt)
          have hle := iin.2.1
          rw [idata] at hle
          have := hf.2.1
          omega

/-- Claim C19: from a cursor `c` within the data, successive `Read` calls into
non-empty buffers return chunks whose concatenation is a prefix of `data[c..]`;
a successful `Read` into a non-empty buffer advances the cursor by at least 1,
so at most `len(data) - c` of the calls succeed, and once there were at least
`len(data) - c` calls the next `Read` returns `(0, io.EOF)`; whenever the next
`Read` returns `io.EOF` the concatenation of the chunks is `data[c..]` exactly,
whatever the buffer sizes were. -/
theorem chunked_read (f : openFile) (bs : List (List Byte)) (hf : f.inRange)
    (hne : ∀ b ∈ bs, b ≠ []) :
    (readChunks f bs).chunks <+: f.data.drop f.offset.toNat ∧
    (∀ b, b ≠ [] → (f.Read b).err = none → f.offset + 1 ≤ (f.Read b).file.offset) ∧
    ((readChunks f bs).successes : Int) ≤ (f.data.length : Int) - f.offset ∧
    ((f.data.length : Int) - f.offset ≤ (bs.length : Int) →
      ∀ b, (readChunks f bs).file.Read b = ⟨(readChunks f bs).file, b, 0, some .EOF⟩) ∧
    (∀ b, ((readChunks f bs).file.Read b).err = some .EOF →
      (readChunks f bs).chunks = f.data.drop f.offset.toNat) ∧
    (readChunks f bs).file.data = f.data := by
  obtain ⟨hin, hdata, hchunk, hsucc, hend⟩ := readChunks_spec f bs hf hne
  have hle := hin.2.1
  rw [hdata] at hle
  have hlen := hin.2.2
  refine ⟨⟨_, hchunk.symm⟩, fun b hb he => (read_step f b hf).2.2.2.2.2 he hb, by omega,
    ?_, ?_, hdata⟩
  · intro henough b
    apply read_eof _ b hlen
    rw [hdata]
    rcases hend with h | h
    · exact h
    · omega
  · intro b heof
    have hatend : ¬ (readChunks f bs).file.offset < ((readChunks f bs).file.data.length : Int) := by
      intro hlt
      rw [(read_step _ b hin).2.2.2.2.1.mpr hlt] at heof
      cases heof
    have hoff : (readChunks f bs).file.offset.toNat = f.data.length := by
      rw [hdata] at hatend
      omega
    rw [hchunk, hoff, List.drop_length, List.append_nil]

/-- Witness for C19: 4 bytes from cursor 1 read through buffers of 2, 1, 3 and
1 bytes: two calls succeed and the chunks are the last three bytes. -/
theorem chunked_read_witness :
    readChunks ⟨"t", [1, 2, 3, 4], 0, 0, 1⟩ [[0, 0], [0], [0, 0, 0], [0]] =
      ⟨⟨"t", [1, 2, 3, 4], 0, 0, 4⟩, [2, 3, 4], 2⟩ ∧
    (readChunks ⟨"t", [1, 2, 3, 4], 0, 0, 1⟩ [[0, 0], [0], [0, 0, 0], [0]]).chunks =
      ([1, 2, 3, 4] : List Byte).drop 1 :=
  ⟨by decide,
    (chunked_read ⟨"t", [1, 2, 3, 4], 0, 0, 1⟩ [[0, 0], [0], [0, 0, 0], [0]] (by decide)
      (by decide)).2.2.2.2.1 [0] (by decide)⟩

/-! ## Order of the watch declarations -/

/-- `Watch(p, e)` leaves the mask of every other pattern as it was. -/
theorem watch_lookup_other (file : File) (p q : String) (e : Event) (h : q ≠ p) :
    (file.Watch p e).watch.lookup q = file.watch.lookup q := by
  simp only [File.Watch, AList.lookup_insert_ne h]

/-- The same `Watch` call on two builders with the same watch entries gives the
same watch entries. -/
theorem watch_perm_congr (a b : File) (hw : a.watch.entries.Perm b.watch.entries)
    (p : String) (e : Event) :
    (a.Watch p e).watch.entries.Perm (b.Watch p e).watch.entries := by
  have hget : WatchMap.get a.watch p = WatchMap.get b.watch p := by
    simp only [WatchMap.get, AList.perm_lookup hw]
  simp only [File.Watch, hget]
  exact AList.perm_insert hw

/-- Two `Watch` calls in either order give the same watch entries. -/
theorem watch_swap (file : File) (p1 p2 : String) (e1 e2 : Event) :
    ((file.Watch p1 e1).Watch p2 e2).watch.entries.Perm
      ((file.Watch p2 e2).Watch p1 e1).watch.entries := by
  by_cases hp : p1 = p2
  · subst hp
    have hleft : ((file.Watch p1 e1).Watch p1 e2).watch =
        ((file.Watch p1 e2).Watch p1 e1).watch := by
      simp only [File.Watch, WatchMap.get, AList.lookup_insert, Option.getD_some,
        AList.insert_insert, Nat.lor_assoc, Nat.lor_comm e1 e2]
    rw [hleft]
  · have h21 : p2 ≠ p1 := fun h => hp h.symm
    have hg2 : WatchMap.get (file.Watch p1 e1).watch p2 = WatchMap.get file.watch p2 := by
      simp only [WatchMap.get, watch_lookup_other file p1 p2 e1 h21]
    have hg1 : WatchMap.get (file.Watch p2 e2).watch p1 = WatchMap.get file.watch p1 := by
      simp only [WatchMap.get, watch_lookup_other file p2 p1 e2 hp]
    have hleft : ((file.Watch p1 e1).Watch p2 e2).watch =
        (file.watch.insert p1 (WatchMap.get file.watch p1 ||| e1)).insert p2
          (WatchMap.get file.watch p2 ||| e2) := by
      rw [← hg2]
      rfl
    have hright : ((file.Watch p2 e2).Watch p1 e1).watch =
        (file.watch.insert p2 (WatchMap.get file.watch p2 ||| e2)).insert p1
          (WatchMap.get file.watch p1 ||| e1) := by
      rw [← hg1]
      rfl
    rw [hleft, hright]
    exact AList.insert_insert_of_ne _ hp

/-- The watch entries after a list of `Watch` calls depend neither on the order
of the calls nor on the order of the entries before. -/
theorem runOps_watch_perm (ws1 ws2 : List (String × Event)) (hperm : ws1.Perm ws2)
    (a b : File) (hw : a.watch.entries.Perm b.watch.entries) :
    (runOps (ws1.map fun w => BuilderOp.watch w.1 w.2) a).watch.entries.Perm
      (runOps (ws2.map fun w => BuilderOp.watch w.1 w.2) b).watch.entries := by
  induction hperm generalizing a b with
  | nil => exact hw
  | cons x _ ih => exact ih _ _ (watch_perm_congr a b hw x.1 x.2)
  | swap x y l =>
    have hsame : ∀ (l : List (String × Event)) (a b : File),
        a.watch.entries.Perm b.watch.entries →
        (runOps (l.map fun w => BuilderOp.watch w.1 w.2) a).watch.entries.Perm
          (runOps (l.map fun w => BuilderOp.watch w.1 w.2) b).watch.entries := by
      intro l
      induction l with
      | nil => intro a b h; exact h
      | cons z l ihl => intro a b h; exact ihl _ _ (watch_perm_congr a b h z.1 z.2)
    exact hsame l _ _ ((watch_swap a y.1 x.1 y.2 x.2).trans
      (watch_perm_congr _ _ (watch_perm_congr a b hw x.1 x.2) y.1 y.2))
  | trans _ _ ih1 ih2 => exact (ih1 a a (List.Perm.refl _)).trans (ih2 a b hw)

/-- Builders with the same path and the same watch entries forward the same
multiset of `link` calls, in whatever order the entries are visited. -/
theorem linkAll_perm {σ : Type} [FS σ] (range range2 : RangeOrder) (f f2 : σ) (a b : File)
    (hpath : a.path = b.path) (hw : a.watch.entries.Perm b.watch.entries) :
    ((linkAll range f a).2 : Multiset LinkCall) = ((linkAll range2 f2 b).2 : Multiset LinkCall) := by
  simp only [linkAll_calls, hpath]
  exact Multiset.coe_eq_coe.mpr
    ((((range.perm _).trans hw).trans (range2.perm _).symm).map _)

/-- Claim C20: `Watch(p1, e1)` then `Watch(p2, e2)` gives the same watch set as
`Watch(p2, e2)` then `Watch(p1, e1)`, for equal or distinct patterns: the same
entries and the same mask for every pattern, with path, data, mode and
modification time equal; `Watch(p, e)` leaves the mask of every other pattern
and the builder's path, data and mode unchanged; hence the multiset of links
forwarded on success is the same for the two orders, and for any two orders of
a list of `Watch` calls. -/
theorem watch_order_independent {σ : Type} [FS σ] (file : File) (p1 p2 : String)
    (e1 e2 : Event) :
    ((file.Watch p1 e1).Watch p2 e2).watch.entries.Perm
      ((file.Watch p2 e2).Watch p1 e1).watch.entries ∧
    (∀ q, ((file.Watch p1 e1).Watch p2 e2).watch.lookup q =
      ((file.Watch p2 e2).Watch p1 e1).watch.lookup q) ∧
    ((file.Watch p1 e1).Watch p2 e2).path = ((file.Watch p2 e2).Watch p1 e1).path ∧
    ((file.Watch p1 e1).Watch p2 e2).data = ((file.Watch p2 e2).Watch p1 e1).data ∧
    ((file.Watch p1 e1).Watch p2 e2).mode = ((file.Watch p2 e2).Watch p1 e1).mode ∧
    ((file.Watch p1 e1).Watch p2 e2).modTime = ((file.Watch p2 e2).Watch p1 e1).modTime ∧
    (∀ q, q ≠ p1 → (file.Watch p1 e1).watch.lookup q = file.watch.lookup q) ∧
    ((file.Watch p1 e1).path = file.path ∧ (file.Watch p1 e1).data = file.data ∧
      (file.Watch p1 e1).mode = file.mode) ∧
    (∀ (fn fn2 : Callback σ) (range range2 : RangeOrder) (f f' f2' : σ)
        (key relative target : String),
      fn f (newFile target) = (f', (file.Watch p1 e1).Watch p2 e2, none) →
      fn2 f (newFile target) = (f2', (file.Watch p2 e2).Watch p1 e1, none) →
      ((GenerateFile.open fn range f key relative target).links : Multiset LinkCall) =
        ((GenerateFile.open fn2 range2 f key relative target).links : Multiset LinkCall)) ∧
    (∀ (ws ws2 : List (String × Event)) (range range2 : RangeOrder) (f : σ)
        (key relative target : String), ws.Perm ws2 →
      ((GenerateFile.open
          (scripted fun f _ => (f, ws.map fun w => BuilderOp.watch w.1 w.2, none))
          range f key relative target).links : Multiset LinkCall) =
        ((GenerateFile.open
          (scripted fun f _ => (f, ws2.map fun w => BuilderOp.watch w.1 w.2, none))
          range2 f key relative target).links : Multiset LinkCall)) := by
  have hswap := watch_swap file p1 p2 e1 e2
  refine ⟨hswap, fun q => AList.perm_lookup hswap, rfl, rfl, rfl, rfl,
    fun q hq => watch_lookup_other file p1 q e1 hq, ⟨rfl, rfl, rfl⟩, ?_, ?_⟩
  · intro fn fn2 range range2 f f' f2' key relative target h h2
    rw [generateFile_open_ok fn range f key relative target f' _ h,
      generateFile_open_ok fn2 range2 f key relative target f2' _ h2]
    exact linkAll_perm range range2 f' f2' _ _ rfl hswap
  · intro ws ws2 range range2 f key relative target hperm
    have hrun : ∀ l : List (String × Event),
        scripted (fun (f : σ) (_ : String) =>
          (f, l.map fun w => BuilderOp.watch w.1 w.2, (none : Option Error))) f (newFile target) =
        (f, runOps (l.map fun w => BuilderOp.watch w.1 w.2) (newFile target), none) :=
      fun l => rfl
    rw [generateFile_open_ok _ range f key relative target f _ (hrun ws),
      generateFile_open_ok _ range2 f key relative target f _ (hrun ws2)]
    apply linkAll_perm range range2 f f
    · rw [runOps_path, runOps_path]
    · exact runOps_watch_perm ws ws2 hperm _ _ (List.Perm.refl _)

/-- Witness for C20: on a builder that already watches "a", declaring "a" and
"b" in the two orders stores the entries in different order but yields the same
links when the entries are visited as stored and back to front. -/
theorem watch_order_independent_witness :
    (GenerateFile.open
        (scripted fun (f : LogFS) _ => (f, [.watch "a" 4, .watch "a" 1, .watch "b" 2], none))
        RangeOrder.stored ⟨[], 0⟩ "k" "r" "t").links = [⟨"t", "b", 2⟩, ⟨"t", "a", 5⟩] ∧
    (GenerateFile.open
        (scripted fun (f : LogFS) _ => (f, [.watch "a" 4, .watch "b" 2, .watch "a" 1], none))
        RangeOrder.reversed ⟨[], 0⟩ "k" "r" "t").links = [⟨"t", "b", 2⟩, ⟨"t", "a", 5⟩] ∧
    ((((newFile "t").Watch "a" 4).Watch "a" 1).Watch "b" 2).watch.entries.Perm
      ((((newFile "t").Watch "a" 4).Watch "b" 2).Watch "a" 1).watch.entries :=
  ⟨by decide, by decide,
    (@watch_order_independent LogFS inferInstance ((newFile "t").Watch "a" 4) "a" "b" 1 2).1⟩

end bfs
